import Mathlib

/-!
Verification development for the typed-validation assertion-combinator engine.

The engine is shallowly embedded: JavaScript runtime values are the inductive
type `JsValue`; an assertion is a function from a value to `Except Exn
ValidationResult`, where the `Except.error` channel models a thrown JS
exception (the non-Result failure channel) and `Except.ok` carries the
ordinary `ValidationResult` (Success with value, or Failure with an error
list).  Each combinator below is translated from the final variant of the
source (the Result-based engine together with its validation-result module).
-/

namespace TypedValidation

/-- A JavaScript runtime value, as far as the engine observes it: undefined,
null, booleans, numbers (integral values suffice for every check in the
engine), strings, arrays, and plain objects given as ordered key/value pair
lists (JS object keys are strings and enumerate in insertion order). -/
inductive JsValue : Type where
  | vUndefined : JsValue
  | vNull : JsValue
  | vBool (b : Bool) : JsValue
  | vNum (n : Int) : JsValue
  | vStr (s : String) : JsValue
  | vArr (items : List JsValue) : JsValue
  | vObj (fields : List (String × JsValue)) : JsValue

/-- A thrown JS exception, reduced to what `errorFromException` inspects:
`some s` when the thrown value is an object whose `message` property is the
string `s`, and `none` when no usable message is present. -/
structure Exn : Type where
  message : Option String

/-- The text `typeof err === 'object' && err.message || 'Unknown error'`
produces for a thrown value (an empty message string is falsy in JS). -/
def exnText (err : Exn) : String :=
  match err.message with
  | some s => if s = "" then "Unknown error" else s
  | none => "Unknown error"

/-- JS `typeof`. -/
def jsTypeof : JsValue → String
  | .vUndefined => "undefined"
  | .vNull => "object"
  | .vBool _ => "boolean"
  | .vNum _ => "number"
  | .vStr _ => "string"
  | .vArr _ => "object"
  | .vObj _ => "object"

/-- JS `arg instanceof Array`. -/
def isArrayInstance : JsValue → Bool
  | .vArr _ => true
  | _ => false

def isNullish : JsValue → Bool
  | .vUndefined => true
  | .vNull => true
  | _ => false

/-- A single-quote character, kept out of string literals. -/
def sq : String := String.singleton (Char.ofNat 39)

/-- A backslash character. -/
def bsl : String := String.singleton (Char.ofNat 92)

mutual

/-- JS string coercion `String(v)` / template-literal interpolation:
arrays join their elements with commas (null/undefined elements become
empty), plain objects print as [object Object]. -/
def jsCoerceString : JsValue → String
  | .vUndefined => "undefined"
  | .vNull => "null"
  | .vBool b => if b then "true" else "false"
  | .vNum n => toString n
  | .vStr s => s
  | .vObj _ => "[object Object]"
  | .vArr items => String.intercalate (",") (jsCoerceElems items)

/-- Element-wise coercion for `Array.prototype.join`. -/
def jsCoerceElems : List JsValue → List String
  | [] => []
  | v :: vs => (if isNullish v then "" else jsCoerceString v) :: jsCoerceElems vs

end

/-- JS property read `arg[key]`: throws a TypeError on null/undefined,
returns the property value (or undefined) otherwise. -/
def jsGet (arg : JsValue) (key : String) : Except Exn JsValue :=
  match arg with
  | .vUndefined =>
    .error ⟨some ("Cannot read properties of undefined (reading " ++ sq ++ key ++ sq ++ ")")⟩
  | .vNull =>
    .error ⟨some ("Cannot read properties of null (reading " ++ sq ++ key ++ sq ++ ")")⟩
  | .vObj fields =>
    .ok (match fields.find? (fun p => p.1 == key) with
         | some p => p.2
         | none => .vUndefined)
  | .vArr items =>
    .ok (if key = "length" then .vNum items.length
         else match key.toNat? with
              | some i => items.getD i .vUndefined
              | none => .vUndefined)
  | .vStr s =>
    .ok (if key = "length" then .vNum s.length
         else match key.toNat? with
              | some i =>
                match s.data.get? i with
                | some c => .vStr (String.singleton c)
                | none => .vUndefined
              | none => .vUndefined)
  | _ => .ok .vUndefined

/-- The source `keysOf` helper: `[]` unless `typeof arg === 'object'`,
otherwise the for-in enumeration (own enumerable keys; array indices
enumerate as decimal strings; for-in over null yields nothing). -/
def keysOf (arg : JsValue) : List String :=
  if jsTypeof arg ≠ "object" then []
  else match arg with
       | .vObj fields => fields.map Prod.fst
       | .vArr items => (List.range items.length).map (fun i => toString i)
       | _ => []

/-- JS `Object.keys`: like for-in but throws on null/undefined and also
enumerates string indices. -/
def objectKeys (arg : JsValue) : Except Exn (List String) :=
  match arg with
  | .vUndefined => .error ⟨some ("Cannot convert undefined or null to object")⟩
  | .vNull => .error ⟨some ("Cannot convert undefined or null to object")⟩
  | .vObj fields => .ok (fields.map Prod.fst)
  | .vArr items => .ok ((List.range items.length).map (fun i => toString i))
  | .vStr s => .ok ((List.range s.length).map (fun i => toString i))
  | _ => .ok []

/-- JS strict equality `===` on the engine's value domain.  Primitives
compare by value; two object or array values in this model stand for
distinct heap references and therefore compare unequal (callers of `equals`
supply primitive constants). -/
def jsStrictEq : JsValue → JsValue → Bool
  | .vUndefined, .vUndefined => true
  | .vNull, .vNull => true
  | .vBool a, .vBool b => a == b
  | .vNum a, .vNum b => a == b
  | .vStr a, .vStr b => a == b
  | _, _ => false

/-- JS `arg < m` where the TS types confine `arg` to number.  Numbers,
null and booleans follow JS numeric coercion; for the remaining kinds
(undefined compares false in JS; strings, arrays and objects are outside
the typed domain of the bound checks) the comparison is false. -/
def jsLtI (arg : JsValue) (m : Int) : Bool :=
  match arg with
  | .vNum n => n < m
  | .vNull => 0 < m
  | .vBool b => (if b then (1 : Int) else 0) < m
  | _ => false

/-- JS `arg > m`, same domain notes as `jsLtI`. -/
def jsGtI (arg : JsValue) (m : Int) : Bool :=
  match arg with
  | .vNum n => m < n
  | .vNull => m < 0
  | .vBool b => m < (if b then (1 : Int) else 0)
  | _ => false

/-- JS `arg.length` for the ILength-typed checks: a number for strings,
arrays, and objects carrying a numeric length property; `none` models the
length property being undefined. -/
def jsLength (arg : JsValue) : Option Int :=
  match arg with
  | .vStr s => some s.length
  | .vArr items => some items.length
  | .vObj fields =>
    match fields.find? (fun p => p.1 == "length") with
    | some ⟨_, .vNum n⟩ => some n
    | _ => none
  | _ => none

/-- Rendering of `arg.length` inside messages (undefined prints as such). -/
def jsLengthText (arg : JsValue) : String :=
  match jsLength arg with
  | some n => toString n
  | none => "undefined"

-- ## Path model and validation results (src/lib/validation-result.ts)

/-- A path step: `KeyPathNode` for an object key, `ArrayIndexPathNode` for an
array index. -/
inductive PathNode : Type where
  | KeyPathNode (key : String) : PathNode
  | ArrayIndexPathNode (index : Nat) : PathNode

def isIdentStart (c : Char) : Bool :=
  c = Char.ofNat 36 || c = Char.ofNat 95 || c.isAlpha

def isIdentChar (c : Char) : Bool :=
  isIdentStart c || c.isDigit

/-- The test `/^[$a-z_][$a-z0-9_]*$/i.test(key)`. -/
def bareIdent (s : String) : Bool :=
  match s.data with
  | [] => false
  | c :: cs => isIdentStart c && cs.all isIdentChar

/-- JS `String.prototype.replace` with a string pattern replaces only the
first occurrence. -/
def replaceFirstCharAux (target : Char) (rep : String) : List Char → List Char
  | [] => []
  | c :: cs => if c = target then rep.data ++ cs else c :: replaceFirstCharAux target rep cs

/-- The key escaping ``key.replace('\\', '\\\\').replace("'", "\\'")``. -/
def escapeKey (key : String) : String :=
  ⟨replaceFirstCharAux (Char.ofNat 39) (bsl ++ sq)
    (replaceFirstCharAux (Char.ofNat 92) (bsl ++ bsl) key.data)⟩

/-- `PathNode.toString()`: `.key` for bareword keys, a bracketed quoted form
otherwise; `[index]` for array indices. -/
def PathNode.render : PathNode → String
  | .KeyPathNode key =>
    if bareIdent key then "." ++ key
    else "[" ++ sq ++ escapeKey key ++ sq ++ "]"
  | .ArrayIndexPathNode index => "[" ++ toString index ++ "]"

/-- A validation error: machine-readable code, human message, and the path
(prepended to as the error propagates outward). -/
structure ValidationError : Type where
  errorCode : String
  message : String
  path : List PathNode

/-- `ValidationError.addPathNode` unshifts a node onto the front of the
path (modelled immutably). -/
def ValidationError.addPathNode (e : ValidationError) (node : PathNode) : ValidationError :=
  ⟨e.errorCode, e.message, node :: e.path⟩

/-- `ValidationError.pathString(root = '$')`. -/
def ValidationError.pathString (e : ValidationError) (root : String) : String :=
  root ++ String.join (e.path.map PathNode.render)

/-- `ValidationError.toString(root = '$')`. -/
def ValidationError.toString (e : ValidationError) (root : String) : String :=
  e.pathString root ++ ": " ++ e.message

/-- The validation result: `success` with the validated value or `failure`
with the error list (the SuccessResult / ErrorResult union of the source). -/
inductive ValidationResult : Type where
  | success (value : JsValue) : ValidationResult
  | failure (errors : List ValidationError) : ValidationResult

def ValidationResult.isSuccessB : ValidationResult → Bool
  | .success _ => true
  | .failure _ => false

def ValidationResult.errorsList : ValidationResult → List ValidationError
  | .success _ => []
  | .failure errors => errors

def ValidationResult.valueOrUndefined : ValidationResult → JsValue
  | .success v => v
  | .failure _ => .vUndefined

/-- `ErrorResult.addPathNode` applies `addPathNode` to every contained
error; on a success result it is a no-op. -/
def ValidationResult.addPathNode (r : ValidationResult) (node : PathNode) : ValidationResult :=
  match r with
  | .success v => .success v
  | .failure errors => .failure (errors.map (fun e => e.addPathNode node))

/-- The `error(errorCode, message)` factory: a Failure holding one error
with an empty path. -/
def error (errorCode message : String) : ValidationResult :=
  .failure [⟨errorCode, message, []⟩]

/-- The `errorFromException(err)` factory: the sole conversion of a thrown
value into the Result channel, with kind UNHANDLED_ERROR. -/
def errorFromException (err : Exn) : ValidationResult :=
  .failure [⟨"UNHANDLED_ERROR", "Unhandled error: " ++ exnText err, []⟩]

/-- The `success(value)` factory. -/
def success (value : JsValue) : ValidationResult :=
  .success value

/-- An assertion: a function from an arbitrary input value to a validation
result, where the `Except.error` channel is a thrown JS exception. -/
abbrev Assertion : Type := JsValue → Except Exn ValidationResult

/-- The source `tryCatch(func, catchFunc)` helper over the exception
channel. -/
def tryCatch (func : Except Exn ValidationResult) (catchFunc : Exn → ValidationResult) :
    ValidationResult :=
  match func with
  | .ok r => r
  | .error e => catchFunc e

-- ## The engine (final variant in part_002)

/-- `validate(arg, assertion)`: run the assertion inside tryCatch, turning a
thrown exception into `errorFromException`.  Being a total Lean function
into `ValidationResult`, its only output channel is the Result. -/
def validate (arg : JsValue) (assertion : Assertion) : ValidationResult :=
  tryCatch (assertion arg) errorFromException

structure IValidationOptions : Type where
  allowAdditionalProperties : Option Bool

/-- The runtime shape of `conformsTo`'s second argument: an options object
or a next assertion (the source dispatches on `typeof`). -/
inductive OptionsOrNext : Type where
  | opts (o : IValidationOptions) : OptionsOrNext
  | nextFn (f : Assertion) : OptionsOrNext

/-- `isObject(next?)`: `typeof arg === 'object'` and not an array (note
that JS null passes this check). -/
def isObject (next : Option Assertion) : Assertion := fun arg =>
  if jsTypeof arg ≠ "object" || isArrayInstance arg then
    .ok (error ("NOT_OBJECT")
      ("Expected object, got " ++ (if isArrayInstance arg then "array" else jsTypeof arg)))
  else match next with
       | some n => n arg
       | none => .ok (success arg)

/-- `validator[key]`: the field assertion looked up by key; an absent key
yields JS undefined, and calling it throws a TypeError. -/
def lookupA (validator : List (String × Assertion)) (key : String) : Assertion :=
  match validator.find? (fun p => p.1 == key) with
  | some p => p.2
  | none => fun _ => .error ⟨some ("validator[key] is not a function")⟩

/-- The per-field run of `conformsTo`:
`tryCatch(() => validator[key](arg[key]), errorFromException)`. -/
def fieldResult (validator : List (String × Assertion)) (arg : JsValue) (key : String) :
    ValidationResult :=
  tryCatch ((jsGet arg key).bind (lookupA validator key)) errorFromException

/-- One step of `conformsTo`'s reduce over the declared keys: run the
field's assertion on `arg[key]` inside tryCatch; a failing field has
`KeyPathNode key` prepended to each of its errors and those errors are
concatenated onto the aggregate, a succeeding field records its validated
value in the partially-validated object. -/
def conformsToStep (validator : List (String × Assertion)) (arg : JsValue)
    (acc : List ValidationError × List (String × JsValue)) (key : String) :
    List ValidationError × List (String × JsValue) :=
  let result := fieldResult validator arg key
  match result with
  | .failure _ => (acc.1 ++ (result.addPathNode (.KeyPathNode key)).errorsList, acc.2)
  | .success v => (acc.1, acc.2 ++ [(key, v)])

/-- The UNEXPECTED_ADDITIONAL_PROPERTIES error appended when additional
properties are disallowed and present (one combined error). -/
def additionalPropertiesError (additionalProperties : List String) : ValidationError :=
  ⟨"UNEXPECTED_ADDITIONAL_PROPERTIES",
   "Unexpected additional propert" ++ (if additionalProperties.length = 1 then "y" else "ies")
     ++ ": " ++ String.intercalate (", ") additionalProperties, []⟩

/-- `conformsTo(validator, optionsOrNext?, next?)`, the object-conformance
combinator: an isObject kind check wrapping the per-field reduce, the
additional-properties check, and construction of the validated object.
Note the source computes `nextAssertion` from a function-typed second
argument but then only ever invokes the third parameter `next`; the
embedding reproduces that behavior. -/
def conformsTo (validator : List (String × Assertion)) (optionsOrNext : Option OptionsOrNext)
    (next : Option Assertion) : Assertion :=
  isObject (some (fun arg =>
    let options : IValidationOptions :=
      match optionsOrNext with
      | some (.opts o) => o
      | _ => ⟨none⟩
    let allowAdditionalProperties := options.allowAdditionalProperties.getD true
    let folded := (validator.map Prod.fst).foldl (conformsToStep validator arg) ([], [])
    let errors := folded.1 ++
      (if !allowAdditionalProperties then
        (let additionalProperties :=
          (keysOf arg).filter (fun key => !(validator.map Prod.fst).contains key)
         if additionalProperties.length > 0 then [additionalPropertiesError additionalProperties]
         else [])
       else [])
    if errors.length > 0 then .ok (.failure errors)
    else match next with
         | some n => n (.vObj folded.2)
         | none => .ok (success (.vObj folded.2))))

/-- `optional(next?)`: pass undefined through as success without invoking
the next assertion. -/
def optional (next : Option Assertion) : Assertion := fun arg =>
  match arg with
  | .vUndefined => .ok (success .vUndefined)
  | a => match next with
         | some n => n a
         | none => .ok (success a)

/-- `nullable(next?)`: pass null through as success without invoking the
next assertion. -/
def nullable (next : Option Assertion) : Assertion := fun arg =>
  match arg with
  | .vNull => .ok (success .vNull)
  | a => match next with
         | some n => n a
         | none => .ok (success a)

/-- `defaultsTo(def, next?)`: substitute the default for undefined before
delegating. -/
def defaultsTo (dflt : JsValue) (next : Option Assertion) : Assertion := fun arg0 =>
  let arg := match arg0 with
             | .vUndefined => dflt
             | a => a
  match next with
  | some n => n arg
  | none => .ok (success arg)

/-- `onErrorDefaultsTo(def, next)`: run next inside tryCatch; a success
passes through, anything else becomes success(def). -/
def onErrorDefaultsTo (dflt : JsValue) (next : Assertion) : Assertion := fun arg =>
  let result := tryCatch (next arg) errorFromException
  match result with
  | .success v => .ok (.success v)
  | .failure _ => .ok (success dflt)

/-- `isBoolean(next?)`. -/
def isBoolean (next : Option Assertion) : Assertion := fun arg =>
  if jsTypeof arg ≠ "boolean" then
    .ok (error ("NOT_BOOLEAN") ("Expected boolean, got " ++ jsTypeof arg))
  else match next with
       | some n => n arg
       | none => .ok (success arg)

/-- `isNumber(next?)`. -/
def isNumber (next : Option Assertion) : Assertion := fun arg =>
  if jsTypeof arg ≠ "number" then
    .ok (error ("NOT_NUMBER") ("Expected number, got " ++ jsTypeof arg))
  else match next with
       | some n => n arg
       | none => .ok (success arg)

/-- `min(min, next?)`: documented precondition that a number already
arrived. -/
def min (m : Int) (next : Option Assertion) : Assertion := fun arg =>
  if jsLtI arg m then
    .ok (error ("LESS_THAN_MIN") (jsCoerceString arg ++ " is less than " ++ toString m))
  else match next with
       | some n => n arg
       | none => .ok (success arg)

/-- `max(max, next?)`. -/
def max (m : Int) (next : Option Assertion) : Assertion := fun arg =>
  if jsGtI arg m then
    .ok (error ("GREATER_THAN_MAX") (jsCoerceString arg ++ " is greater than " ++ toString m))
  else match next with
       | some n => n arg
       | none => .ok (success arg)

/-- `isString(next?)`. -/
def isString (next : Option Assertion) : Assertion := fun arg =>
  if jsTypeof arg ≠ "string" then
    .ok (error ("NOT_STRING") ("Expected string, got " ++ jsTypeof arg))
  else match next with
       | some n => n arg
       | none => .ok (success arg)

/-- A regular expression as the engine observes it: a test predicate plus
its `toString()` rendering. -/
structure JsRegExp : Type where
  test : String → Bool
  display : String

/-- The source combinator `matches(regex, next?)` (`matches` is a reserved
word in Lean): `regex.test` coerces its argument to string. -/
def matchesRegExp (regex : JsRegExp) (next : Option Assertion) : Assertion := fun arg =>
  if !(regex.test (jsCoerceString arg)) then
    .ok (error ("FAILED_REGEXP") ("Failed regular expression " ++ regex.display))
  else match next with
       | some n => n arg
       | none => .ok (success arg)

/-- `minLength(min, next?)`: documented precondition that a value with a
length already arrived (JS comparison against an undefined length is
false). -/
def minLength (m : Int) (next : Option Assertion) : Assertion := fun arg =>
  if (match jsLength arg with
      | some l => decide (l < m)
      | none => false) then
    .ok (error ("LESS_THAN_MIN_LENGTH")
      ("Length " ++ jsLengthText arg ++ " is less than " ++ toString m))
  else match next with
       | some n => n arg
       | none => .ok (success arg)

/-- `maxLength(max, next?)`. -/
def maxLength (m : Int) (next : Option Assertion) : Assertion := fun arg =>
  if (match jsLength arg with
      | some l => decide (m < l)
      | none => false) then
    .ok (error ("GREATER_THAN_MAX_LENGTH")
      ("Length " ++ jsLengthText arg ++ " is greater than " ++ toString m))
  else match next with
       | some n => n arg
       | none => .ok (success arg)

/-- `lengthIs(length, next?)` (JS `!==` is true when the length property is
undefined). -/
def lengthIs (m : Int) (next : Option Assertion) : Assertion := fun arg =>
  if (match jsLength arg with
      | some l => decide (l ≠ m)
      | none => true) then
    .ok (error ("LENGTH_NOT_EQUAL")
      ("Length " ++ jsLengthText arg ++ " is not equal to " ++ toString m))
  else match next with
       | some n => n arg
       | none => .ok (success arg)

/-- `isArray(next?)`. -/
def isArray (next : Option Assertion) : Assertion := fun arg =>
  if !(isArrayInstance arg) then
    .ok (error ("NOT_ARRAY") ("Expected array, got " ++ jsTypeof arg))
  else match next with
       | some n => n arg
       | none => .ok (success arg)

/-- The per-item run of `eachItem`: the assertion inside tryCatch. -/
def itemResult (assertion : Assertion) (item : JsValue) : ValidationResult :=
  tryCatch (assertion item) errorFromException

/-- `eachItem(assertion, next?)`: map the assertion over the array inside
tryCatch; if any result failed, prepend the array index to each failing
result's errors and concatenate them all (ascending index order); otherwise
continue with the array of validated values.  Calling it on a non-array
throws (`arg.map` is not a function). -/
def eachItem (assertion : Assertion) (next : Option Assertion) : Assertion := fun arg =>
  match arg with
  | .vArr items =>
    let results := items.map (itemResult assertion)
    if results.any (fun r => !r.isSuccessB) then
      .ok (.failure
        ((results.enum.map (fun p =>
            if p.2.isSuccessB then p.2 else p.2.addPathNode (.ArrayIndexPathNode p.1)))
          |>.filter (fun r => !r.isSuccessB)
          |>.foldl (fun errors r => errors ++ r.errorsList) []))
    else
      let mapped := results.map ValidationResult.valueOrUndefined
      match next with
      | some n => n (.vArr mapped)
      | none => .ok (success (.vArr mapped))
  | _ => .error ⟨some ("arg.map is not a function")⟩

/-- `equals(value, ...values)`: strict-equality membership in the fixed
value list. -/
def equals (value : JsValue) (values : List JsValue) : Assertion := fun arg =>
  let vals := value :: values
  if vals.any (fun val => jsStrictEq val arg) then .ok (success arg)
  else
    .ok (error ("NOT_EQUAL")
      (if vals.length = 1 then
        sq ++ jsCoerceString arg ++ sq ++ " does not equal " ++ sq
          ++ jsCoerceString value ++ sq
       else
        sq ++ jsCoerceString arg ++ sq ++ " not one of: "
          ++ String.intercalate (", ") (vals.map jsCoerceString)))

/-- The `typeof key` of a for-in enumerated property key: always string in
JS. -/
def jsTypeofKey (_ : String) : String := "string"

/-- `isMap(next?)`: an isObject check followed by a scan for non-string
keys. -/
def isMap (next : Option Assertion) : Assertion :=
  isObject (some (fun arg =>
    let nonStringKeys := (keysOf arg).filter (fun key => jsTypeofKey key ≠ "string")
    if nonStringKeys.length > 0 then
      .ok (error ("NOT_STRING_KEY")
        ("Expected string keys, got: " ++ String.intercalate (",")
          (nonStringKeys.map (fun key => key ++ " (" ++ jsTypeofKey key ++ ")"))))
    else match next with
         | some n => n arg
         | none => .ok (success arg)))

/-- `eachValue(assertion, next?)`: build a synthetic validator mapping every
own key of the input to the assertion and delegate to `conformsTo` (the
source never uses the `next` parameter). -/
def eachValue (assertion : Assertion) (next : Option Assertion) : Assertion := fun arg =>
  match objectKeys arg with
  | .error e => .error e
  | .ok keys =>
    conformsTo (keys.foldl (fun validator key => validator ++ [(key, assertion)]) []) none none arg

/-- The NO_MATCH message: the fixed prefix followed by every accumulated
error rendered with the default root. -/
def noMatchMessage (errors : List ValidationError) : String :=
  "No match found - the following assertions failed:\n    "
    ++ String.intercalate ("\n    ") (errors.map (fun e => e.toString ("$")))

/-- The loop of `either`: try each assertion in order, return the first
success, accumulate the errors of failures. -/
def eitherGo (arg : JsValue) : List Assertion → List ValidationError →
    Except Exn ValidationResult
  | [], errors => .ok (error ("NO_MATCH") (noMatchMessage errors))
  | assertion :: rest, errors =>
    match assertion arg with
    | .error e => .error e
    | .ok (.success v) => .ok (.success v)
    | .ok (.failure errs) => eitherGo arg rest (errors ++ errs)

/-- `either(...assertions)`. -/
def either (assertions : List Assertion) : Assertion := fun arg =>
  eitherGo arg assertions []

-- ## Specification-side descriptions of the aggregation behavior

/-- The contribution of one declared field to the aggregate error list: the
errors of a failing field with the key step prepended, nothing for a
succeeding field. -/
def fieldErrsAt (validator : List (String × Assertion)) (arg : JsValue) (key : String) :
    List ValidationError :=
  match fieldResult validator arg key with
  | .failure errs => errs.map (fun e => e.addPathNode (.KeyPathNode key))
  | .success _ => []

/-- The contribution of one declared field to the validated object: its
key/value pair when it succeeds, nothing when it fails. -/
def fieldValAt (validator : List (String × Assertion)) (arg : JsValue) (key : String) :
    List (String × JsValue) :=
  match fieldResult validator arg key with
  | .success v => [(key, v)]
  | .failure _ => []

/-- The aggregate error list of `conformsTo`: the concatenation, over every
declared field in declaration order, of the failing fields' key-stamped
errors. -/
def fieldErrors (validator : List (String × Assertion)) (arg : JsValue) :
    List ValidationError :=
  (validator.map Prod.fst).flatMap (fieldErrsAt validator arg)

/-- The validated object of `conformsTo`: the declared fields, in
declaration order, that succeeded, each with its validated value. -/
def validatedFields (validator : List (String × Assertion)) (arg : JsValue) :
    List (String × JsValue) :=
  (validator.map Prod.fst).flatMap (fieldValAt validator arg)

/-- The aggregate error list of `eachItem`: the concatenation, over every
index in ascending order, of the failing items' index-stamped errors. -/
def eachItemErrors (assertion : Assertion) (items : List JsValue) : List ValidationError :=
  (items.map (itemResult assertion)).enum.flatMap (fun p =>
    match p.2 with
    | .failure errs => errs.map (fun e => e.addPathNode (.ArrayIndexPathNode p.1))
    | .success _ => [])

/-- The errors accumulated by `either` over a list of failing assertions,
in the order the assertions were given. -/
def collectErrors (assertions : List Assertion) (arg : JsValue) : List ValidationError :=
  assertions.flatMap (fun b =>
    match b arg with
    | .ok r => r.errorsList
    | .error _ => [])

-- ## Shared lemmas

theorem conformsToStep_eq (validator : List (String × Assertion)) (arg : JsValue)
    (acc : List ValidationError × List (String × JsValue)) (key : String) :
    conformsToStep validator arg acc key =
      (acc.1 ++ fieldErrsAt validator arg key, acc.2 ++ fieldValAt validator arg key) := by
  unfold conformsToStep fieldErrsAt fieldValAt
  cases h : fieldResult validator arg key with
  | success v => simp [h]
  | failure errs => simp [h, ValidationResult.addPathNode, ValidationResult.errorsList]

theorem conformsToFoldl (validator : List (String × Assertion)) (arg : JsValue) :
    ∀ (keys : List String) (acc : List ValidationError × List (String × JsValue)),
      keys.foldl (conformsToStep validator arg) acc =
        (acc.1 ++ keys.flatMap (fieldErrsAt validator arg),
         acc.2 ++ keys.flatMap (fieldValAt validator arg)) := by
  intro keys
  induction keys with
  | nil => intro acc; simp
  | cons key rest ih =>
    intro acc
    simp only [List.foldl_cons, List.flatMap_cons, conformsToStep_eq, ih, List.append_assoc]

theorem foldl_append_errorsList (l : List ValidationResult) (init : List ValidationError) :
    l.foldl (fun es r => es ++ r.errorsList) init = init ++ l.flatMap ValidationResult.errorsList := by
  induction l generalizing init with
  | nil => simp
  | cons r rest ih => simp [ih, List.append_assoc]

theorem isSuccessB_success (v : JsValue) :
    (ValidationResult.success v).isSuccessB = true := rfl

theorem isSuccessB_failure (errs : List ValidationError) :
    (ValidationResult.failure errs).isSuccessB = false := rfl

theorem mapped_filter_bind (l : List (Nat × ValidationResult)) :
    (((l.map (fun p =>
        if p.2.isSuccessB then p.2 else p.2.addPathNode (.ArrayIndexPathNode p.1))).filter
      (fun r => !r.isSuccessB)).flatMap ValidationResult.errorsList) =
    l.flatMap (fun p =>
      match p.2 with
      | .failure errs => errs.map (fun e => e.addPathNode (.ArrayIndexPathNode p.1))
      | .success _ => []) := by
  induction l with
  | nil => rfl
  | cons p rest ih =>
    obtain ⟨i, r⟩ := p
    cases r with
    | success v => simpa [isSuccessB_success] using ih
    | failure errs =>
      simpa [isSuccessB_failure, ValidationResult.addPathNode, ValidationResult.errorsList]
        using ih

-- ## C1: the entry-point boundary

/-- C1: for every input value and every assertion, `validate` never
raises (it is a total function into `ValidationResult`): when the assertion
returns a Result it is returned unchanged, and when the assertion fails
through the thrown-exception channel, `validate` returns a Failure whose
single error has kind UNHANDLED_ERROR. -/
theorem validate_boundary (assertion : Assertion) (arg : JsValue) :
    (∀ r, assertion arg = .ok r → validate arg assertion = r) ∧
    (∀ e, assertion arg = .error e →
      validate arg assertion =
        .failure [⟨"UNHANDLED_ERROR", "Unhandled error: " ++ exnText e, []⟩]) := by
  refine ⟨fun r h => ?_, fun e h => ?_⟩ <;>
    simp [validate, tryCatch, h, errorFromException]

/-- Witness for C1: a throwing assertion is converted to the
UNHANDLED_ERROR failure and a Result-returning assertion passes through. -/
theorem validate_boundary_witness :
    validate .vNull (fun _ => .error ⟨some ("boom")⟩) =
      .failure [⟨"UNHANDLED_ERROR", "Unhandled error: " ++ exnText ⟨some ("boom")⟩, []⟩] ∧
    validate .vNull (fun _ => .ok (success (.vNum 1))) = success (.vNum 1) :=
  ⟨(validate_boundary (fun _ => .error ⟨some ("boom")⟩) .vNull).2 ⟨some ("boom")⟩ rfl,
   (validate_boundary (fun _ => .ok (success (.vNum 1))) .vNull).1 (success (.vNum 1)) rfl⟩

-- ## C6: the NOT_OBJECT short-circuit of conformsTo

/-- C6: for every input failing the object kind check (`typeof` not
`object`, or an array instance), `conformsTo` returns the NOT_OBJECT
failure; the result is the same for every validator, options, and next
assertion, so no field-level assertion is consulted. -/
theorem conformsTo_not_object (validator : List (String × Assertion))
    (optionsOrNext : Option OptionsOrNext) (next : Option Assertion) (arg : JsValue)
    (h : jsTypeof arg ≠ "object" ∨ isArrayInstance arg = true) :
    conformsTo validator optionsOrNext next arg =
      .ok (error ("NOT_OBJECT")
        ("Expected object, got " ++ (if isArrayInstance arg then "array" else jsTypeof arg))) := by
  unfold conformsTo isObject
  rcases h with h | h
  · simp [h]
  · simp [h]

/-- Witness for C6: a number input and an array input are both rejected
with NOT_OBJECT, for a nonempty validator. -/
theorem conformsTo_not_object_witness :
    conformsTo [("a", isNumber none)] none none (.vNum 7) =
      .ok (error ("NOT_OBJECT") ("Expected object, got number")) ∧
    conformsTo [("a", isNumber none)] none none (.vArr []) =
      .ok (error ("NOT_OBJECT") ("Expected object, got array")) :=
  ⟨conformsTo_not_object [("a", isNumber none)] none none (.vNum 7) (Or.inl (by decide)),
   conformsTo_not_object [("a", isNumber none)] none none (.vArr []) (Or.inr rfl)⟩

-- ## C7: onErrorDefaultsTo is a hard failure boundary

/-- C7: `onErrorDefaultsTo(d, next)` returns Success(d) whenever the next
assertion fails, whether by returning a Failure (with any error contents)
or by throwing, and none of the discarded errors reach the caller; a
Success of the next assertion passes through unchanged. -/
theorem onErrorDefaultsTo_boundary (dflt : JsValue) (next : Assertion) (arg : JsValue) :
    (∀ v, next arg = .ok (.success v) →
      onErrorDefaultsTo dflt next arg = .ok (.success v)) ∧
    (∀ errs, next arg = .ok (.failure errs) →
      onErrorDefaultsTo dflt next arg = .ok (.success dflt)) ∧
    (∀ e, next arg = .error e →
      onErrorDefaultsTo dflt next arg = .ok (.success dflt)) := by
  refine ⟨fun v h => ?_, fun errs h => ?_, fun e h => ?_⟩ <;>
    simp [onErrorDefaultsTo, tryCatch, h, errorFromException, success]

/-- Witness for C7: a failing, a throwing, and a succeeding next
assertion. -/
theorem onErrorDefaultsTo_boundary_witness :
    onErrorDefaultsTo (.vNum 9) (isString none) (.vNum 5) = .ok (.success (.vNum 9)) ∧
    onErrorDefaultsTo (.vNum 9) (fun _ => .error ⟨none⟩) (.vNum 5) = .ok (.success (.vNum 9)) ∧
    onErrorDefaultsTo (.vNum 9) (isNumber none) (.vNum 5) = .ok (.success (.vNum 5)) :=
  ⟨(onErrorDefaultsTo_boundary (.vNum 9) (isString none) (.vNum 5)).2.1
      [⟨"NOT_STRING", "Expected string, got number", []⟩] rfl,
   (onErrorDefaultsTo_boundary (.vNum 9) (fun _ => .error ⟨none⟩) (.vNum 5)).2.2 ⟨none⟩ rfl,
   (onErrorDefaultsTo_boundary (.vNum 9) (isNumber none) (.vNum 5)).1 (.vNum 5) rfl⟩

-- ## C10: the NOT_STRING_KEY branch of isMap is dead code

theorem isMapEqIsObject (next : Option Assertion) (arg : JsValue) :
    isMap next arg = isObject next arg := by
  unfold isMap isObject
  by_cases h : jsTypeof arg = "object"
  · cases harr : isArrayInstance arg
    · simp [h, harr, jsTypeofKey]
    · simp [h, harr]
  · simp [h]

/-- C10: `isMap` never produces a NOT_STRING_KEY failure, because the
for-in key enumeration (`keysOf`) yields only string keys and yields the
empty list for non-object inputs; consequently `isMap` behaves exactly
like `isObject` and succeeds on exactly the inputs `isObject` accepts. -/
theorem isMap_not_string_key_unreachable :
    (∀ (next : Option Assertion) (arg : JsValue), isMap next arg = isObject next arg) ∧
    (∀ arg : JsValue,
      (∃ v, isMap none arg = .ok (.success v)) ↔ (∃ v, isObject none arg = .ok (.success v))) ∧
    (∀ arg : JsValue, jsTypeof arg ≠ "object" → keysOf arg = []) ∧
    (∀ (arg : JsValue) (errs : List ValidationError),
      isMap none arg = .ok (.failure errs) → ∀ e ∈ errs, e.errorCode ≠ "NOT_STRING_KEY") := by
  refine ⟨isMapEqIsObject, fun arg => by rw [isMapEqIsObject], fun arg h => ?_, ?_⟩
  · unfold keysOf
    simp [h]
  · intro arg errs h e he
    rw [isMapEqIsObject] at h
    unfold isObject at h
    split at h
    · cases h
      simp only [error, List.mem_singleton] at he
      subst he
      intro hc
      exact (by decide : ("NOT_OBJECT" : String) ≠ "NOT_STRING_KEY") hc
    · cases h

/-- Witness for C10: the isMap result on an array, a non-object, and an
object, and the keysOf behavior on a non-object input. -/
theorem isMap_not_string_key_unreachable_witness :
    keysOf (.vNum 0) = [] ∧
    (∀ e ∈ [⟨"NOT_OBJECT", "Expected object, got number", []⟩],
      ValidationError.errorCode e ≠ "NOT_STRING_KEY") :=
  ⟨isMap_not_string_key_unreachable.2.2.1 (.vNum 0) (by decide),
   isMap_not_string_key_unreachable.2.2.2 (.vNum 0)
     [⟨"NOT_OBJECT", "Expected object, got number", []⟩] rfl⟩

-- ## C3: alternation

theorem eitherGo_first_success (arg : JsValue) (v : JsValue) :
    ∀ (pre : List Assertion) (a : Assertion) (post : List Assertion)
      (errors : List ValidationError),
      (∀ b ∈ pre, ∃ errs, b arg = .ok (.failure errs)) →
      a arg = .ok (.success v) →
      eitherGo arg (pre ++ a :: post) errors = .ok (.success v) := by
  intro pre
  induction pre with
  | nil =>
    intro a post errors _ ha
    simp [eitherGo, ha]
  | cons b rest ih =>
    intro a post errors hall ha
    obtain ⟨errs, hb⟩ := hall b (by simp)
    rw [List.cons_append]
    unfold eitherGo
    rw [hb]
    exact ih a post (errors ++ errs) (fun x hx => hall x (List.mem_cons_of_mem b hx)) ha

theorem eitherGo_all_fail (arg : JsValue) :
    ∀ (assertions : List Assertion) (errors : List ValidationError),
      (∀ b ∈ assertions, ∃ errs, b arg = .ok (.failure errs)) →
      eitherGo arg assertions errors =
        .ok (error ("NO_MATCH")
          (noMatchMessage (errors ++ collectErrors assertions arg))) := by
  intro assertions
  induction assertions with
  | nil =>
    intro errors _
    simp [eitherGo, collectErrors]
  | cons b rest ih =>
    intro errors hall
    obtain ⟨errs, hb⟩ := hall b (by simp)
    have hc : collectErrors (b :: rest) arg = errs ++ collectErrors rest arg := by
      simp [collectErrors, hb, ValidationResult.errorsList]
    unfold eitherGo
    rw [hb]
    show eitherGo arg rest (errors ++ errs) = _
    rw [ih (errors ++ errs) (fun x hx => hall x (List.mem_cons_of_mem b hx)), hc,
      ← List.append_assoc]

/-- C3 amended: `either` tries the assertions in order, returns the first
Success (discarding earlier failures), and when all assertions fail
returns one Failure of kind NO_MATCH whose message concatenates the
formatted sub-errors of every attempted assertion, in the order the
assertions were given, under the fixed prefix (there are no caller-supplied
labels in the engine). -/
theorem either_first_success_or_no_match (arg : JsValue) :
    (∀ (pre : List Assertion) (a : Assertion) (post : List Assertion) (v : JsValue),
      (∀ b ∈ pre, ∃ errs, b arg = .ok (.failure errs)) →
      a arg = .ok (.success v) →
      either (pre ++ a :: post) arg = .ok (.success v)) ∧
    (∀ assertions : List Assertion,
      (∀ b ∈ assertions, ∃ errs, b arg = .ok (.failure errs)) →
      either assertions arg =
        .ok (error ("NO_MATCH") (noMatchMessage (collectErrors assertions arg)))) := by
  constructor
  · intro pre a post v hall ha
    exact eitherGo_first_success arg v pre a post [] hall ha
  · intro assertions hall
    have h := eitherGo_all_fail arg assertions [] hall
    simpa using h

/-- Witness for C3 amended: a successful second alternative is returned,
and an all-fail run produces the NO_MATCH failure with the concatenated
message. -/
theorem either_first_success_or_no_match_witness :
    either [isString none, isNumber none] (.vNum 5) = .ok (.success (.vNum 5)) ∧
    either [isString none] (.vNum 5) =
      .ok (error ("NO_MATCH") (noMatchMessage (collectErrors [isString none] (.vNum 5)))) :=
  ⟨(either_first_success_or_no_match (.vNum 5)).1 [isString none] (isNumber none) [] (.vNum 5)
      (by
        intro b hb
        rw [List.mem_singleton] at hb
        subst hb
        exact ⟨[⟨"NOT_STRING", "Expected string, got number", []⟩], rfl⟩)
      rfl,
   (either_first_success_or_no_match (.vNum 5)).2 [isString none]
      (by
        intro b hb
        rw [List.mem_singleton] at hb
        subst hb
        exact ⟨[⟨"NOT_STRING", "Expected string, got number", []⟩], rfl⟩)⟩

/-- Counterexample for C3 as stated: the message of an all-fail `either`
run is the fixed prefix followed only by the formatted sub-errors; the
engine's `either` accepts no caller-supplied labels and its message
contains none. -/
theorem either_no_labels_counterexample :
    either [isString none, isNumber none] .vNull =
      .ok (.failure [⟨"NO_MATCH",
        "No match found - the following assertions failed:\n    $: Expected string, got object\n    $: Expected number, got object",
        []⟩]) := rfl

-- ## C2 and C5: object conformance

theorem flatMap_map_fst (keys : List String) (f : String → List (String × JsValue))
    (h : ∀ k ∈ keys, (f k).map Prod.fst = [k]) : (keys.flatMap f).map Prod.fst = keys := by
  induction keys with
  | nil => rfl
  | cons k rest ih =>
    rw [List.flatMap_cons, List.map_append, h k (by simp),
      ih (fun x hx => h x (List.mem_cons_of_mem k hx))]
    rfl

/-- C2: on an object-shaped input, `conformsTo(spec)` (default options)
runs every declared field and, as soon as at least one field fails,
returns a single Failure whose error list is exactly the concatenation, in
field-declaration order, of each failing field's errors with the field's
key step prepended (`fieldErrors` below is that concatenation over all
declared fields, so no field is skipped after an earlier failure). -/
theorem conformsTo_default_eq (validator : List (String × Assertion)) (arg : JsValue)
    (hobj : jsTypeof arg = "object") (harr : isArrayInstance arg = false) :
    conformsTo validator none none arg =
      .ok (if 0 < (fieldErrors validator arg).length
           then .failure (fieldErrors validator arg)
           else success (.vObj (validatedFields validator arg))) := by
  unfold conformsTo isObject
  simp [hobj, harr, conformsToFoldl, fieldErrors, validatedFields]
  split <;> rfl

theorem conformsTo_aggregates_field_errors (validator : List (String × Assertion))
    (arg : JsValue) (hobj : jsTypeof arg = "object") (harr : isArrayInstance arg = false)
    (hfail : fieldErrors validator arg ≠ []) :
    conformsTo validator none none arg = .ok (.failure (fieldErrors validator arg)) := by
  have hlen : 0 < (fieldErrors validator arg).length := List.length_pos.mpr hfail
  rw [conformsTo_default_eq validator arg hobj harr, if_pos hlen]

/-- Witness for C2: both bad fields of a two-field spec are reported, in
declaration order, each under its key step. -/
theorem conformsTo_aggregates_field_errors_witness :
    conformsTo
        [("name", isString (some (minLength 1 none))), ("age", isNumber (some (min 0 none)))]
        none none (.vObj [("name", .vStr ""), ("age", .vNum (-1))]) =
      .ok (.failure
        [⟨"LESS_THAN_MIN_LENGTH", "Length 0 is less than 1", [.KeyPathNode "name"]⟩,
         ⟨"LESS_THAN_MIN", "-1 is less than 0", [.KeyPathNode "age"]⟩]) := by
  have h := conformsTo_aggregates_field_errors
    [("name", isString (some (minLength 1 none))), ("age", isNumber (some (min 0 none)))]
    (.vObj [("name", .vStr ""), ("age", .vNum (-1))]) rfl rfl
    (by
      intro hnil
      have := congrArg List.length hnil
      exact absurd this (by decide))
  exact h

/-- C5: on an object-shaped input whose declared fields all succeed (the
default options raise no additional-properties error), `conformsTo(spec)`
returns Success of a new object whose keys are exactly the declared keys in
declaration order, each mapped to its validated value; input keys not
declared in the spec do not occur in the success value. -/
theorem conformsTo_success_strips (validator : List (String × Assertion)) (arg : JsValue)
    (hobj : jsTypeof arg = "object") (harr : isArrayInstance arg = false)
    (hok : ∀ key ∈ validator.map Prod.fst, ∃ v, fieldResult validator arg key = .success v) :
    conformsTo validator none none arg = .ok (.success (.vObj (validatedFields validator arg))) ∧
    (validatedFields validator arg).map Prod.fst = validator.map Prod.fst ∧
    (∀ key, key ∈ keysOf arg → key ∉ validator.map Prod.fst →
      key ∉ (validatedFields validator arg).map Prod.fst) := by
  have herrs : (validator.map Prod.fst).flatMap (fieldErrsAt validator arg) = [] := by
    rw [List.bind_eq_nil]
    intro key hk
    obtain ⟨v, hv⟩ := hok key hk
    simp [fieldErrsAt, hv]
  have hkeys : (validatedFields validator arg).map Prod.fst = validator.map Prod.fst := by
    unfold validatedFields
    refine flatMap_map_fst _ _ (fun k hk => ?_)
    obtain ⟨v, hv⟩ := hok k hk
    simp [fieldValAt, hv]
  refine ⟨?_, hkeys, fun key _ h2 hcontra => h2 (hkeys ▸ hcontra)⟩
  have herrs2 : fieldErrors validator arg = [] := herrs
  rw [conformsTo_default_eq validator arg hobj harr, if_neg (by simp [herrs2])]
  rfl

/-- Witness for C5: the undeclared key of the input is stripped and the
declared keys appear in declaration order. -/
theorem conformsTo_success_strips_witness :
    conformsTo
        [("name", isString (some (minLength 1 none))), ("age", isNumber (some (min 0 none)))]
        none none (.vObj [("extra", .vBool true), ("name", .vStr "Bob"), ("age", .vNum 3)]) =
      .ok (.success (.vObj [("name", .vStr "Bob"), ("age", .vNum 3)])) := by
  have h := (conformsTo_success_strips
    [("name", isString (some (minLength 1 none))), ("age", isNumber (some (min 0 none)))]
    (.vObj [("extra", .vBool true), ("name", .vStr "Bob"), ("age", .vNum 3)]) rfl rfl
    (by
      intro key hk
      rcases List.mem_cons.mp hk with h1 | h1
      · subst h1
        exact ⟨.vStr ("Bob"), rfl⟩
      · rcases List.mem_cons.mp h1 with h2 | h2
        · subst h2
          exact ⟨.vNum 3, rfl⟩
        · cases h2)).1
  exact h

-- ## C4: eachItem

/-- C4: `eachItem(assertion)` applies the assertion to every element; if
any element fails, the result is one Failure whose error list is the
concatenation, in ascending index order over all indices, of each failing
element's errors with the index step prepended; if every element succeeds,
the result is Success of the array of validated element values in original
order. -/
theorem eachItem_all_indices (assertion : Assertion) (items : List JsValue) :
    ((∃ item ∈ items, ∀ v, itemResult assertion item ≠ .success v) →
      eachItem assertion none (.vArr items) = .ok (.failure (eachItemErrors assertion items))) ∧
    ((∀ item ∈ items, ∃ v, itemResult assertion item = .success v) →
      eachItem assertion none (.vArr items) =
        .ok (.success (.vArr (items.map (fun item =>
          (itemResult assertion item).valueOrUndefined))))) := by
  constructor
  · intro hfail
    have hany : (items.map (itemResult assertion)).any (fun r => !r.isSuccessB) = true := by
      rw [List.any_eq_true]
      obtain ⟨item, hmem, hne⟩ := hfail
      refine ⟨itemResult assertion item, List.mem_map_of_mem _ hmem, ?_⟩
      cases h : itemResult assertion item with
      | success v => exact absurd h (hne v)
      | failure errs => rfl
    unfold eachItem
    simp only [hany, if_true]
    rw [foldl_append_errorsList, mapped_filter_bind]
    rfl
  · intro hok
    have hany : (items.map (itemResult assertion)).any (fun r => !r.isSuccessB) = false := by
      rw [List.any_eq_false]
      intro r hr
      obtain ⟨item, hmem, rfl⟩ := List.mem_map.mp hr
      obtain ⟨v, hv⟩ := hok item hmem
      simp [hv, isSuccessB_success]
    unfold eachItem
    simp [hany, List.map_map, Function.comp_def, success]

/-- Witness for C4: one failing index is reported under its index step,
and an all-success array maps to its validated values. -/
theorem eachItem_all_indices_witness :
    eachItem (isString none) none (.vArr [.vStr "a", .vNum 2, .vStr "c"]) =
      .ok (.failure (eachItemErrors (isString none) [.vStr "a", .vNum 2, .vStr "c"])) ∧
    eachItem (isString none) none (.vArr [.vStr "a", .vStr "b"]) =
      .ok (.success (.vArr ([.vStr "a", .vStr "b"].map (fun item =>
        (itemResult (isString none) item).valueOrUndefined)))) :=
  ⟨(eachItem_all_indices (isString none) [.vStr "a", .vNum 2, .vStr "c"]).1
      ⟨.vNum 2, by simp, fun v h => ValidationResult.noConfusion h⟩,
   (eachItem_all_indices (isString none) [.vStr "a", .vStr "b"]).2
      (by
        intro item hmem
        rcases List.mem_cons.mp hmem with h1 | h1
        · subst h1
          exact ⟨.vStr ("a"), rfl⟩
        · rcases List.mem_cons.mp h1 with h2 | h2
          · subst h2
            exact ⟨.vStr ("b"), rfl⟩
          · cases h2)⟩

-- ## C8: Failures are never empty

/-- A result respecting the Failure invariant: success, or a failure with
a nonempty error list. -/
def GoodResult : ValidationResult → Prop
  | .success _ => True
  | .failure errors => errors ≠ []

/-- An assertion whose returned results respect the Failure invariant
(nothing is required of its thrown-exception channel). -/
def GoodAssertion (a : Assertion) : Prop :=
  ∀ x r, a x = .ok r → GoodResult r

def GoodAssertionO : Option Assertion → Prop
  | some a => GoodAssertion a
  | none => True

theorem goodResult_error (code msg : String) : GoodResult (error code msg) := by
  simp [GoodResult, error]

theorem goodResult_errorFromException (e : Exn) : GoodResult (errorFromException e) := by
  simp [GoodResult, errorFromException]

theorem good_checkStyle (check : Assertion) (next : Option Assertion)
    (hshape : ∀ x, (∃ code msg, check x = .ok (error code msg)) ∨
      (check x = match next with
                 | some n => n x
                 | none => .ok (success x))) (h : GoodAssertionO next) :
    GoodAssertion check := by
  intro x r hr
  rcases hshape x with ⟨code, msg, hc⟩ | hc
  · rw [hc] at hr
    cases hr
    exact goodResult_error _ _
  · rw [hc] at hr
    cases next with
    | some n => exact h x r hr
    | none =>
      cases hr
      trivial

theorem good_isBoolean (next : Option Assertion) (h : GoodAssertionO next) :
    GoodAssertion (isBoolean next) := by
  refine good_checkStyle _ next (fun x => ?_) h
  unfold isBoolean
  split
  · exact Or.inl ⟨_, _, rfl⟩
  · exact Or.inr rfl

theorem good_isNumber (next : Option Assertion) (h : GoodAssertionO next) :
    GoodAssertion (isNumber next) := by
  refine good_checkStyle _ next (fun x => ?_) h
  unfold isNumber
  split
  · exact Or.inl ⟨_, _, rfl⟩
  · exact Or.inr rfl

theorem good_isString (next : Option Assertion) (h : GoodAssertionO next) :
    GoodAssertion (isString next) := by
  refine good_checkStyle _ next (fun x => ?_) h
  unfold isString
  split
  · exact Or.inl ⟨_, _, rfl⟩
  · exact Or.inr rfl

theorem good_isArray (next : Option Assertion) (h : GoodAssertionO next) :
    GoodAssertion (isArray next) := by
  refine good_checkStyle _ next (fun x => ?_) h
  unfold isArray
  split
  · exact Or.inl ⟨_, _, rfl⟩
  · exact Or.inr rfl

theorem good_isObject (next : Option Assertion) (h : GoodAssertionO next) :
    GoodAssertion (isObject next) := by
  refine good_checkStyle _ next (fun x => ?_) h
  unfold isObject
  split
  · exact Or.inl ⟨_, _, rfl⟩
  · exact Or.inr rfl

theorem good_min (m : Int) (next : Option Assertion) (h : GoodAssertionO next) :
    GoodAssertion (min m next) := by
  refine good_checkStyle _ next (fun x => ?_) h
  unfold min
  split
  · exact Or.inl ⟨_, _, rfl⟩
  · exact Or.inr rfl

theorem good_max (m : Int) (next : Option Assertion) (h : GoodAssertionO next) :
    GoodAssertion (max m next) := by
  refine good_checkStyle _ next (fun x => ?_) h
  unfold max
  split
  · exact Or.inl ⟨_, _, rfl⟩
  · exact Or.inr rfl

theorem good_minLength (m : Int) (next : Option Assertion) (h : GoodAssertionO next) :
    GoodAssertion (minLength m next) := by
  refine good_checkStyle _ next (fun x => ?_) h
  unfold minLength
  split
  · exact Or.inl ⟨_, _, rfl⟩
  · exact Or.inr rfl

theorem good_maxLength (m : Int) (next : Option Assertion) (h : GoodAssertionO next) :
    GoodAssertion (maxLength m next) := by
  refine good_checkStyle _ next (fun x => ?_) h
  unfold maxLength
  split
  · exact Or.inl ⟨_, _, rfl⟩
  · exact Or.inr rfl

theorem good_lengthIs (m : Int) (next : Option Assertion) (h : GoodAssertionO next) :
    GoodAssertion (lengthIs m next) := by
  refine good_checkStyle _ next (fun x => ?_) h
  unfold lengthIs
  split
  · exact Or.inl ⟨_, _, rfl⟩
  · exact Or.inr rfl

theorem good_matchesRegExp (regex : JsRegExp) (next : Option Assertion)
    (h : GoodAssertionO next) : GoodAssertion (matchesRegExp regex next) := by
  refine good_checkStyle _ next (fun x => ?_) h
  unfold matchesRegExp
  split
  · exact Or.inl ⟨_, _, rfl⟩
  · exact Or.inr rfl

theorem equals_cases (value : JsValue) (values : List JsValue) (x : JsValue) :
    equals value values x = .ok (success x) ∨
    ∃ code msg, equals value values x = .ok (error code msg) := by
  unfold equals
  dsimp only
  split
  · exact Or.inl rfl
  · exact Or.inr ⟨_, _, rfl⟩

theorem good_equals (value : JsValue) (values : List JsValue) :
    GoodAssertion (equals value values) := by
  intro x r hr
  rcases equals_cases value values x with hc | ⟨code, msg, hc⟩ <;> rw [hc] at hr <;> cases hr
  · trivial
  · exact goodResult_error _ _

theorem good_optional (next : Option Assertion) (h : GoodAssertionO next) :
    GoodAssertion (optional next) := by
  intro x r hr
  unfold optional at hr
  split at hr
  · cases hr
    trivial
  · cases next with
    | some n => exact h _ _ hr
    | none =>
      cases hr
      trivial

theorem good_nullable (next : Option Assertion) (h : GoodAssertionO next) :
    GoodAssertion (nullable next) := by
  intro x r hr
  unfold nullable at hr
  split at hr
  · cases hr
    trivial
  · cases next with
    | some n => exact h _ _ hr
    | none =>
      cases hr
      trivial

theorem good_defaultsTo (dflt : JsValue) (next : Option Assertion) (h : GoodAssertionO next) :
    GoodAssertion (defaultsTo dflt next) := by
  intro x r hr
  unfold defaultsTo at hr
  cases next with
  | some n => exact h _ _ hr
  | none =>
    cases hr
    trivial

theorem onErrorDefaultsTo_always_success (dflt : JsValue) (next : Assertion) (x : JsValue) :
    ∃ v, onErrorDefaultsTo dflt next x = .ok (.success v) := by
  unfold onErrorDefaultsTo
  dsimp only
  split
  · exact ⟨_, rfl⟩
  · exact ⟨_, rfl⟩

theorem good_onErrorDefaultsTo (dflt : JsValue) (next : Assertion) :
    GoodAssertion (onErrorDefaultsTo dflt next) := by
  intro x r hr
  obtain ⟨v, hc⟩ := onErrorDefaultsTo_always_success dflt next x
  rw [hc] at hr
  cases hr
  trivial

/-- Delegating to the optional next assertion, as every combinator does on
its success path. -/
def contNext (next : Option Assertion) (v : JsValue) : Except Exn ValidationResult :=
  match next with
  | some n => n v
  | none => .ok (success v)

theorem conformsTo_cases (validator : List (String × Assertion))
    (optionsOrNext : Option OptionsOrNext) (next : Option Assertion) (x : JsValue) :
    (∃ code msg, conformsTo validator optionsOrNext next x = .ok (error code msg)) ∨
    (∃ errors, errors ≠ [] ∧
      conformsTo validator optionsOrNext next x = .ok (.failure errors)) ∨
    (∃ v, conformsTo validator optionsOrNext next x = contNext next v) := by
  unfold conformsTo isObject
  split
  · exact Or.inl ⟨_, _, rfl⟩
  · dsimp only
    split
    · split
      · split
        · rename_i hcond
          exact Or.inr (Or.inl ⟨_, List.ne_nil_of_length_pos hcond, rfl⟩)
        · refine Or.inr (Or.inr
            ⟨.vObj ((validator.map Prod.fst).foldl (conformsToStep validator x) ([], [])).2, ?_⟩)
          cases next <;> rfl
      · split
        · rename_i hcond
          exact Or.inr (Or.inl ⟨_, List.ne_nil_of_length_pos hcond, rfl⟩)
        · refine Or.inr (Or.inr
            ⟨.vObj ((validator.map Prod.fst).foldl (conformsToStep validator x) ([], [])).2, ?_⟩)
          cases next <;> rfl
    · split
      · rename_i hcond
        exact Or.inr (Or.inl ⟨_, List.ne_nil_of_length_pos hcond, rfl⟩)
      · refine Or.inr (Or.inr
          ⟨.vObj ((validator.map Prod.fst).foldl (conformsToStep validator x) ([], [])).2, ?_⟩)
        cases next <;> rfl

theorem good_contNext (next : Option Assertion) (h : GoodAssertionO next) (v : JsValue)
    (r : ValidationResult) (hr : contNext next v = .ok r) : GoodResult r := by
  cases next with
  | some n => exact h _ _ hr
  | none =>
    cases hr
    trivial

theorem good_conformsTo (validator : List (String × Assertion))
    (optionsOrNext : Option OptionsOrNext) (next : Option Assertion)
    (h : GoodAssertionO next) : GoodAssertion (conformsTo validator optionsOrNext next) := by
  intro x r hr
  rcases conformsTo_cases validator optionsOrNext next x with
    ⟨code, msg, hc⟩ | ⟨errors, hne, hc⟩ | ⟨v, hc⟩
  · rw [hc] at hr
    cases hr
    exact goodResult_error _ _
  · rw [hc] at hr
    cases hr
    exact hne
  · rw [hc] at hr
    exact good_contNext next h v r hr

theorem good_itemResult (assertion : Assertion) (ha : GoodAssertion assertion)
    (item : JsValue) : GoodResult (itemResult assertion item) := by
  unfold itemResult tryCatch
  split
  · next r heq => exact ha _ _ heq
  · next e heq => exact goodResult_errorFromException e

theorem enumFrom_errors_ne_nil :
    ∀ (k : Nat) (l : List ValidationResult), (∀ r ∈ l, GoodResult r) →
      (∃ r ∈ l, r.isSuccessB = false) →
      (l.enumFrom k).flatMap (fun p =>
        match p.2 with
        | .failure errs => errs.map (fun e => e.addPathNode (.ArrayIndexPathNode p.1))
        | .success _ => []) ≠ [] := by
  intro k l
  induction l generalizing k with
  | nil =>
    intro _ hex
    obtain ⟨r, hr, _⟩ := hex
    cases hr
  | cons r rest ih =>
    intro hgood hex
    show (((k, r) :: rest.enumFrom (k + 1)).flatMap _) ≠ []
    rw [List.flatMap_cons]
    cases hres : r with
    | failure errs =>
      have hne : errs ≠ [] := by
        have := hgood r (by simp)
        rw [hres] at this
        exact this
      simp only [hres]
      intro hcontra
      rcases List.append_eq_nil.mp hcontra with ⟨h1, _⟩
      exact hne (List.map_eq_nil_iff.mp h1)
    | success v =>
      simp only [hres, List.nil_append]
      refine ih (k + 1) (fun x hx => hgood x (List.mem_cons_of_mem r hx)) ?_
      obtain ⟨r0, hr0, hfail0⟩ := hex
      rcases List.mem_cons.mp hr0 with h1 | h1
      · subst h1
        rw [hres] at hfail0
        cases hfail0
      · exact ⟨r0, h1, hfail0⟩

theorem eachItem_cases (assertion : Assertion) (next : Option Assertion)
    (items : List JsValue) :
    ((items.map (itemResult assertion)).any (fun r => !r.isSuccessB) = true ∧
      eachItem assertion next (.vArr items) = .ok (.failure (eachItemErrors assertion items))) ∨
    ((items.map (itemResult assertion)).any (fun r => !r.isSuccessB) = false ∧
      eachItem assertion next (.vArr items) =
        contNext next
          (.vArr ((items.map (itemResult assertion)).map ValidationResult.valueOrUndefined))) := by
  unfold eachItem
  dsimp only
  split
  · rename_i hany
    left
    refine ⟨hany, ?_⟩
    rw [foldl_append_errorsList, mapped_filter_bind]
    rfl
  · rename_i hany
    right
    refine ⟨by simpa using hany, ?_⟩
    cases next <;> rfl

theorem good_eachItem (assertion : Assertion) (next : Option Assertion)
    (ha : GoodAssertion assertion) (h : GoodAssertionO next) :
    GoodAssertion (eachItem assertion next) := by
  intro x r hr
  cases x with
  | vArr items =>
    rcases eachItem_cases assertion next items with ⟨hany, hc⟩ | ⟨hany, hc⟩
    · rw [hc] at hr
      cases hr
      show (eachItemErrors assertion items : List ValidationError) ≠ []
      have hgood : ∀ r0 ∈ items.map (itemResult assertion), GoodResult r0 := by
        intro r0 hr0
        obtain ⟨item, _, rfl⟩ := List.mem_map.mp hr0
        exact good_itemResult assertion ha item
      have hex : ∃ r0 ∈ items.map (itemResult assertion), r0.isSuccessB = false := by
        obtain ⟨r0, hr0, hb⟩ := List.any_eq_true.mp hany
        exact ⟨r0, hr0, by simpa using hb⟩
      exact enumFrom_errors_ne_nil 0 (items.map (itemResult assertion)) hgood hex
    · rw [hc] at hr
      exact good_contNext next h _ r hr
  | vUndefined => exact absurd hr (by simp [eachItem])
  | vNull => exact absurd hr (by simp [eachItem])
  | vBool b => exact absurd hr (by simp [eachItem])
  | vNum n => exact absurd hr (by simp [eachItem])
  | vStr s => exact absurd hr (by simp [eachItem])
  | vObj fields => exact absurd hr (by simp [eachItem])

theorem good_eachValue (assertion : Assertion) (next : Option Assertion) :
    GoodAssertion (eachValue assertion next) := by
  intro x r hr
  unfold eachValue at hr
  split at hr
  · cases hr
  · exact good_conformsTo _ none none trivial _ _ hr

theorem good_isMap (next : Option Assertion) (h : GoodAssertionO next) :
    GoodAssertion (isMap next) := by
  intro x r hr
  rw [isMapEqIsObject] at hr
  exact good_isObject next h x r hr

theorem good_eitherGo (arg : JsValue) :
    ∀ (assertions : List Assertion) (errors : List ValidationError) (r : ValidationResult),
      eitherGo arg assertions errors = .ok r → GoodResult r := by
  intro assertions
  induction assertions with
  | nil =>
    intro errors r hr
    cases hr
    exact goodResult_error _ _
  | cons b rest ih =>
    intro errors r hr
    unfold eitherGo at hr
    split at hr
    · cases hr
    · cases hr
      trivial
    · exact ih _ _ hr

theorem good_either (assertions : List Assertion) : GoodAssertion (either assertions) :=
  fun x r hr => good_eitherGo x assertions [] r hr

theorem good_validate (a : Assertion) (arg : JsValue) (h : GoodAssertion a) :
    GoodResult (validate arg a) := by
  unfold validate tryCatch
  split
  · next r heq => exact h _ _ heq
  · next e heq => exact goodResult_errorFromException e

/-- C8: the result model has exactly the two states Success and Failure,
and every engine operation preserves the invariant that a Failure carries a
nonempty error list: whenever the caller-supplied sub-assertions respect
the invariant, the operation's own results do too (operations whose
conjunct carries no `GoodAssertion` hypothesis preserve it
unconditionally). -/
theorem failure_never_empty :
    (∀ r : ValidationResult, (∃ v, r = .success v) ∨ (∃ errs, r = .failure errs)) ∧
    (∀ (a : Assertion) (arg : JsValue), GoodAssertion a → GoodResult (validate arg a)) ∧
    (∀ next, GoodAssertionO next → GoodAssertion (isBoolean next)) ∧
    (∀ next, GoodAssertionO next → GoodAssertion (isNumber next)) ∧
    (∀ next, GoodAssertionO next → GoodAssertion (isString next)) ∧
    (∀ next, GoodAssertionO next → GoodAssertion (isArray next)) ∧
    (∀ next, GoodAssertionO next → GoodAssertion (isObject next)) ∧
    (∀ m next, GoodAssertionO next → GoodAssertion (min m next)) ∧
    (∀ m next, GoodAssertionO next → GoodAssertion (max m next)) ∧
    (∀ m next, GoodAssertionO next → GoodAssertion (minLength m next)) ∧
    (∀ m next, GoodAssertionO next → GoodAssertion (maxLength m next)) ∧
    (∀ m next, GoodAssertionO next → GoodAssertion (lengthIs m next)) ∧
    (∀ regex next, GoodAssertionO next → GoodAssertion (matchesRegExp regex next)) ∧
    (∀ value values, GoodAssertion (equals value values)) ∧
    (∀ next, GoodAssertionO next → GoodAssertion (optional next)) ∧
    (∀ next, GoodAssertionO next → GoodAssertion (nullable next)) ∧
    (∀ dflt next, GoodAssertionO next → GoodAssertion (defaultsTo dflt next)) ∧
    (∀ dflt next, GoodAssertion (onErrorDefaultsTo dflt next)) ∧
    (∀ validator optionsOrNext next, GoodAssertionO next →
      GoodAssertion (conformsTo validator optionsOrNext next)) ∧
    (∀ assertion next, GoodAssertion assertion → GoodAssertionO next →
      GoodAssertion (eachItem assertion next)) ∧
    (∀ assertion next, GoodAssertion (eachValue assertion next)) ∧
    (∀ next, GoodAssertionO next → GoodAssertion (isMap next)) ∧
    (∀ assertions, GoodAssertion (either assertions)) := by
  refine ⟨fun r => ?_, fun a arg h => good_validate a arg h, good_isBoolean, good_isNumber,
    good_isString, good_isArray, good_isObject, good_min, good_max, good_minLength,
    good_maxLength, good_lengthIs, good_matchesRegExp, good_equals, good_optional,
    good_nullable, good_defaultsTo, good_onErrorDefaultsTo, good_conformsTo,
    fun assertion next ha h => good_eachItem assertion next ha h, good_eachValue,
    good_isMap, good_either⟩
  cases r with
  | success v => exact Or.inl ⟨v, rfl⟩
  | failure errs => exact Or.inr ⟨errs, rfl⟩

/-- Witness for C8: a composed engine run on a concrete input yields a
result respecting the invariant, with sub-assertion hypotheses discharged
through the theorem itself. -/
theorem failure_never_empty_witness :
    GoodResult (validate (.vArr [.vNum 1, .vStr "a"])
      (isArray (some (eachItem (isString none) none)))) := by
  obtain ⟨h0, hval, hbool, hnum, hstr, harr, hobj, hmin, hmax, hminl, hmaxl, hlen, hre,
    heqs, hopt, hnul, hdef, honerr, hconf, heach, heachv, hmap, heither⟩ :=
    failure_never_empty
  exact hval _ _ (harr _ (heach (isString none) none (hstr none trivial) trivial))

-- ## C9: round-trip idempotence

/-- Duplicate-freedom of a key list (JS objects cannot carry duplicate
keys). -/
def myNodup : List String → Bool
  | [] => true
  | k :: ks => (!ks.contains k) && myNodup ks

mutual

/-- Well-formedness of a value as a JS runtime value: object key lists are
duplicate-free, recursively. -/
def jsWF : JsValue → Bool
  | .vUndefined => true
  | .vNull => true
  | .vBool _ => true
  | .vNum _ => true
  | .vStr _ => true
  | .vArr items => jsWFList items
  | .vObj fields => myNodup (fields.map Prod.fst) && jsWFFields fields

def jsWFList : List JsValue → Bool
  | [] => true
  | v :: vs => jsWF v && jsWFList vs

def jsWFFields : List (String × JsValue) → Bool
  | [] => true
  | (_, v) :: rest => jsWF v && jsWFFields rest

end

/-- Two values of the same JS kind (equal `typeof` and equal
array-instance status), which is what every kind check observes. -/
def sameKind (x v : JsValue) : Prop :=
  jsTypeof v = jsTypeof x ∧ isArrayInstance v = isArrayInstance x

/-- Round-trip idempotence of an assertion: a success value is well formed,
keeps the input's kind (when the input is not the undefined sentinel,
which `defaultsTo` may replace), and re-validates to itself. -/
def IdemProp (a : Assertion) : Prop :=
  ∀ x v, jsWF x = true → a x = .ok (.success v) →
    jsWF v = true ∧ (x ≠ .vUndefined → sameKind x v) ∧ a v = .ok (.success v)

def IdemPropO : Option Assertion → Prop
  | some a => IdemProp a
  | none => True

/-- Round-trip idempotence of an array-chain assertion, additionally
preserving kind unconditionally and preserving the length property (so
that length checks earlier in the chain re-pass). -/
def IdemLenProp (a : Assertion) : Prop :=
  ∀ x v, jsWF x = true → a x = .ok (.success v) →
    jsWF v = true ∧ sameKind x v ∧ jsLength v = jsLength x ∧ a v = .ok (.success v)

theorem idemProp_congr (a b : Assertion) (hab : ∀ x, a x = b x) (h : IdemProp b) :
    IdemProp a := by
  intro x v hwf hsucc
  rw [hab x] at hsucc
  obtain ⟨h1, h2, h3⟩ := h x v hwf hsucc
  exact ⟨h1, h2, by rw [hab v]; exact h3⟩

theorem jsWFList_mem {items : List JsValue} (h : jsWFList items = true) {item : JsValue}
    (hm : item ∈ items) : jsWF item = true := by
  induction items with
  | nil => cases hm
  | cons a rest ih =>
    rw [jsWFList, Bool.and_eq_true] at h
    rcases List.mem_cons.mp hm with h1 | h1
    · subst h1
      exact h.1
    · exact ih h.2 h1

theorem jsWFList_of_forall {items : List JsValue} (h : ∀ item ∈ items, jsWF item = true) :
    jsWFList items = true := by
  induction items with
  | nil => rfl
  | cons a rest ih =>
    rw [jsWFList, Bool.and_eq_true]
    exact ⟨h a (by simp), ih (fun x hx => h x (List.mem_cons_of_mem a hx))⟩

theorem jsWFFields_mem {fields : List (String × JsValue)} (h : jsWFFields fields = true)
    {p : String × JsValue} (hm : p ∈ fields) : jsWF p.2 = true := by
  induction fields with
  | nil => cases hm
  | cons q rest ih =>
    obtain ⟨k, v⟩ := q
    rw [jsWFFields, Bool.and_eq_true] at h
    rcases List.mem_cons.mp hm with h1 | h1
    · subst h1
      exact h.1
    · exact ih h.2 h1

theorem jsWFFields_of_forall {fields : List (String × JsValue)}
    (h : ∀ p ∈ fields, jsWF p.2 = true) : jsWFFields fields = true := by
  induction fields with
  | nil => rfl
  | cons q rest ih =>
    obtain ⟨k, v⟩ := q
    rw [jsWFFields, Bool.and_eq_true]
    exact ⟨h (k, v) (by simp), ih (fun x hx => h x (List.mem_cons_of_mem (k, v) hx))⟩

/-- The object-property read underlying `arg[key]` on an object value. -/
def objGet (fields : List (String × JsValue)) (key : String) : JsValue :=
  match fields.find? (fun p => p.1 == key) with
  | some p => p.2
  | none => .vUndefined

theorem jsGet_obj (fields : List (String × JsValue)) (key : String) :
    jsGet (.vObj fields) key = .ok (objGet fields key) := rfl

theorem jsWF_objGet {fields : List (String × JsValue)}
    (h : jsWF (.vObj fields) = true) (key : String) : jsWF (objGet fields key) = true := by
  unfold objGet
  cases hf : fields.find? (fun p => p.1 == key) with
  | none => rfl
  | some p =>
    rw [jsWF, Bool.and_eq_true] at h
    exact jsWFFields_mem h.2 (List.mem_of_find?_eq_some hf)

theorem keysOf_obj (fields : List (String × JsValue)) :
    keysOf (.vObj fields) = fields.map Prod.fst := by
  simp [keysOf, jsTypeof]

/-- The allowAdditionalProperties flag extracted from the optionsOrNext
argument. -/
def allowOf (optionsOrNext : Option OptionsOrNext) : Bool :=
  (match optionsOrNext with
   | some (.opts o) => o
   | _ => (⟨none⟩ : IValidationOptions)).allowAdditionalProperties.getD true

/-- The additional-properties contribution to the aggregate error list. -/
def additionalErrorsFor (validator : List (String × Assertion)) (arg : JsValue)
    (allow : Bool) : List ValidationError :=
  if !allow then
    (let additionalProperties :=
      (keysOf arg).filter (fun key => !(validator.map Prod.fst).contains key)
     if additionalProperties.length > 0 then [additionalPropertiesError additionalProperties]
     else [])
  else []

theorem conformsTo_obj_eq (validator : List (String × Assertion))
    (optionsOrNext : Option OptionsOrNext) (next : Option Assertion) (arg : JsValue)
    (hobj : jsTypeof arg = "object") (harr : isArrayInstance arg = false) :
    conformsTo validator optionsOrNext next arg =
      (if 0 < (fieldErrors validator arg
            ++ additionalErrorsFor validator arg (allowOf optionsOrNext)).length
       then .ok (.failure (fieldErrors validator arg
            ++ additionalErrorsFor validator arg (allowOf optionsOrNext)))
       else contNext next (.vObj (validatedFields validator arg))) := by
  unfold conformsTo isObject allowOf additionalErrorsFor contNext
  simp [hobj, harr, conformsToFoldl, fieldErrors, validatedFields]

theorem fieldResult_eq (validator : List (String × Assertion)) (arg : JsValue) (key : String) :
    fieldResult validator arg key =
      (match jsGet arg key with
       | .error e => errorFromException e
       | .ok xk =>
         match validator.find? (fun p => p.1 == key) with
         | some p =>
           (match p.2 xk with
            | .ok r => r
            | .error e => errorFromException e)
         | none => errorFromException ⟨some ("validator[key] is not a function")⟩) := by
  unfold fieldResult tryCatch lookupA
  cases jsGet arg key with
  | error e => rfl
  | ok xk =>
    cases validator.find? (fun p => p.1 == key) with
    | none => rfl
    | some p =>
      cases p.2 xk with
      | ok r => rfl
      | error e => rfl

theorem fieldResult_null (validator : List (String × Assertion)) (key : String) :
    fieldResult validator .vNull key =
      errorFromException
        ⟨some ("Cannot read properties of null (reading " ++ sq ++ key ++ sq ++ ")")⟩ := by
  rw [fieldResult_eq]
  rfl

theorem fieldResult_success_elim {validator : List (String × Assertion)}
    {fields : List (String × JsValue)} {key : String} {w : JsValue}
    (h : fieldResult validator (.vObj fields) key = .success w) :
    ∃ p, validator.find? (fun q => q.1 == key) = some p ∧
      p.2 (objGet fields key) = .ok (.success w) := by
  rw [fieldResult_eq, jsGet_obj] at h
  cases hf : validator.find? (fun q => q.1 == key) with
  | none =>
    rw [hf] at h
    simp [errorFromException] at h
  | some p =>
    rw [hf] at h
    dsimp only at h
    cases hres : p.2 (objGet fields key) with
    | ok r =>
      rw [hres] at h
      dsimp only at h
      exact ⟨p, rfl, by rw [hres]; exact congrArg Except.ok h⟩
    | error e =>
      rw [hres] at h
      simp [errorFromException] at h

theorem find?_map_self (keys : List String) (g : String → JsValue) (key : String)
    (hmem : key ∈ keys) :
    (keys.map (fun k => (k, g k))).find? (fun p => p.1 == key) = some (key, g key) := by
  induction keys with
  | nil => cases hmem
  | cons k ks ih =>
    by_cases hk : k = key
    · subst hk
      simp [List.find?]
    · have hne : ((k, g k).1 == key) = false := by simp [hk]
      rw [List.map_cons, List.find?_cons_of_neg _ (by simp [hk])]
      refine ih ?_
      rcases List.mem_cons.mp hmem with h1 | h1
      · exact absurd h1.symm hk
      · exact h1

theorem flatMap_singleton_eq_map (keys : List String) (f : String → List (String × JsValue))
    (g : String → String × JsValue) (h : ∀ k ∈ keys, f k = [g k]) :
    keys.flatMap f = keys.map g := by
  induction keys with
  | nil => rfl
  | cons k ks ih =>
    rw [List.flatMap_cons, List.map_cons, h k (by simp),
      ih (fun x hx => h x (List.mem_cons_of_mem k hx))]
    rfl

theorem map_fst_map_pair (keys : List String) (g : String → JsValue) :
    (keys.map (fun k => (k, g k))).map Prod.fst = keys := by
  simp [List.map_map, Function.comp_def]

theorem filter_not_contains_self (keys : List String) :
    keys.filter (fun key => !(keys.contains key)) = [] := by
  rw [List.filter_eq_nil_iff]
  intro k hk
  simp [List.elem_eq_true_of_mem hk, hk]

theorem additionalErrorsFor_self (validator : List (String × Assertion))
    (pv : List (String × JsValue)) (hkeys : keysOf (.vObj pv) = validator.map Prod.fst)
    (allow : Bool) : additionalErrorsFor validator (.vObj pv) allow = [] := by
  unfold additionalErrorsFor
  cases allow with
  | true => rfl
  | false => simp [hkeys, filter_not_contains_self]

theorem goodResult_fieldResult (validator : List (String × Assertion)) (arg : JsValue)
    (key : String) (hgood : ∀ p ∈ validator, GoodAssertion p.2) :
    GoodResult (fieldResult validator arg key) := by
  rw [fieldResult_eq]
  cases jsGet arg key with
  | error e => exact goodResult_errorFromException e
  | ok xk =>
    dsimp only
    cases hf : validator.find? (fun p => p.1 == key) with
    | none => exact goodResult_errorFromException _
    | some p =>
      dsimp only
      cases hres : p.2 xk with
      | ok r =>
        dsimp only
        exact hgood p (List.mem_of_find?_eq_some hf) xk r hres
      | error e => exact goodResult_errorFromException e

theorem validatedFields_map (validator : List (String × Assertion)) (arg : JsValue)
    (hkey : ∀ key ∈ validator.map Prod.fst, ∃ w, fieldResult validator arg key = .success w) :
    validatedFields validator arg =
      (validator.map Prod.fst).map
        (fun k => (k, (fieldResult validator arg k).valueOrUndefined)) := by
  unfold validatedFields
  refine flatMap_singleton_eq_map _ _ _ (fun k hk => ?_)
  obtain ⟨w, hw⟩ := hkey k hk
  simp [fieldValAt, hw, ValidationResult.valueOrUndefined]

theorem conformsTo_idem (validator : List (String × Assertion))
    (optionsOrNext : Option OptionsOrNext) (arg v : JsValue)
    (hnodup : myNodup (validator.map Prod.fst) = true)
    (hgood : ∀ p ∈ validator, GoodAssertion p.2)
    (hidem : ∀ p ∈ validator, IdemProp p.2)
    (hwf : jsWF arg = true)
    (hsucc : conformsTo validator optionsOrNext none arg = .ok (.success v)) :
    ∃ pv, v = .vObj pv ∧ pv.map Prod.fst = validator.map Prod.fst ∧ jsWF v = true ∧
      conformsTo validator optionsOrNext none v = .ok (.success v) := by
  have hobj : jsTypeof arg = "object" := by
    by_contra hc
    rw [conformsTo_not_object validator optionsOrNext none arg (Or.inl hc)] at hsucc
    simp [error] at hsucc
  have harr : isArrayInstance arg = false := by
    by_contra hc
    rw [conformsTo_not_object validator optionsOrNext none arg
      (Or.inr (by revert hc; cases isArrayInstance arg <;> simp))] at hsucc
    simp [error] at hsucc
  rw [conformsTo_obj_eq validator optionsOrNext none arg hobj harr] at hsucc
  split at hsucc
  · simp at hsucc
  next hlen =>
  have hnil : fieldErrors validator arg
      ++ additionalErrorsFor validator arg (allowOf optionsOrNext) = [] :=
    List.length_eq_zero.mp (Nat.eq_zero_of_not_pos hlen)
  obtain ⟨hfe, _⟩ := List.append_eq_nil.mp hnil
  cases hsucc
  have hkey : ∀ key ∈ validator.map Prod.fst,
      ∃ w, fieldResult validator arg key = .success w := by
    intro key hk
    simp only [fieldErrors] at hfe
    have h0 : fieldErrsAt validator arg key = [] := List.bind_eq_nil.mp hfe key hk
    cases hres : fieldResult validator arg key with
    | success w => exact ⟨w, rfl⟩
    | failure errs =>
      exfalso
      have hers : errs.map (fun e => e.addPathNode (.KeyPathNode key)) = [] := by
        simpa [fieldErrsAt, hres] using h0
      have hnilerrs : errs = [] := List.map_eq_nil_iff.mp hers
      have hg := goodResult_fieldResult validator arg key hgood
      rw [hres] at hg
      exact hg hnilerrs
  have hargcase : arg = .vNull ∨ ∃ fields, arg = .vObj fields := by
    cases arg with
    | vNull => exact Or.inl rfl
    | vObj fields => exact Or.inr ⟨fields, rfl⟩
    | vUndefined => exact absurd hobj (by simp [jsTypeof])
    | vBool b => exact absurd hobj (by simp [jsTypeof])
    | vNum n => exact absurd hobj (by simp [jsTypeof])
    | vStr s => exact absurd hobj (by simp [jsTypeof])
    | vArr items => exact absurd harr (by simp [isArrayInstance])
  rcases hargcase with rfl | ⟨fields, rfl⟩
  · -- null input: every declared field would have failed with UNHANDLED_ERROR
    have hvalnil : validator = [] := by
      cases validator with
      | nil => rfl
      | cons p ps =>
        exfalso
        obtain ⟨w, hw⟩ := hkey p.1 (by simp)
        rw [fieldResult_null] at hw
        simp [errorFromException] at hw
    subst hvalnil
    refine ⟨[], rfl, rfl, rfl, ?_⟩
    rw [conformsTo_obj_eq [] optionsOrNext none (.vObj (validatedFields [] .vNull)) rfl rfl]
    rw [additionalErrorsFor_self [] _ (by rfl) _]
    rfl
  · -- object input
    have hforall : ∀ key ∈ validator.map Prod.fst, ∃ p,
        validator.find? (fun q => q.1 == key) = some p ∧
        jsWF ((fieldResult validator (.vObj fields) key).valueOrUndefined) = true ∧
        p.2 ((fieldResult validator (.vObj fields) key).valueOrUndefined) =
          .ok (.success ((fieldResult validator (.vObj fields) key).valueOrUndefined)) := by
      intro key hk
      obtain ⟨w, hw⟩ := hkey key hk
      obtain ⟨p, hf, hp⟩ := fieldResult_success_elim hw
      have hwk : (fieldResult validator (.vObj fields) key).valueOrUndefined = w := by
        rw [hw]
        rfl
      have hmem := List.mem_of_find?_eq_some hf
      have hwfx : jsWF (objGet fields key) = true := jsWF_objGet hwf key
      obtain ⟨hwfw, _, hround⟩ := hidem p hmem (objGet fields key) w hwfx hp
      rw [hwk]
      exact ⟨p, hf, hwfw, hround⟩
    have hvf : validatedFields validator (.vObj fields) =
        (validator.map Prod.fst).map
          (fun k => (k, (fieldResult validator (.vObj fields) k).valueOrUndefined)) :=
      validatedFields_map _ _ hkey
    rw [hvf]
    set pv := (validator.map Prod.fst).map
      (fun k => (k, (fieldResult validator (.vObj fields) k).valueOrUndefined)) with hpv
    have hroundkey : ∀ key ∈ validator.map Prod.fst,
        fieldResult validator (.vObj pv) key =
          .success ((fieldResult validator (.vObj fields) key).valueOrUndefined) := by
      intro key hk
      obtain ⟨p, hf, _, hround⟩ := hforall key hk
      rw [fieldResult_eq, jsGet_obj]
      have hog : objGet pv key =
          (fieldResult validator (.vObj fields) key).valueOrUndefined := by
        unfold objGet
        rw [hpv, find?_map_self _ _ key hk]
      rw [hog, hf]
      dsimp only
      rw [hround]
    have hkeyspv : pv.map Prod.fst = validator.map Prod.fst := by
      rw [hpv]
      exact map_fst_map_pair _ _
    refine ⟨pv, rfl, hkeyspv, ?_, ?_⟩
    · show jsWF (.vObj pv) = true
      have hunfold : jsWF (.vObj pv) = (myNodup (pv.map Prod.fst) && jsWFFields pv) := rfl
      rw [hunfold, Bool.and_eq_true, hkeyspv]
      refine ⟨hnodup, jsWFFields_of_forall (fun q hq => ?_)⟩
      rw [hpv] at hq
      obtain ⟨k, hkmem, rfl⟩ := List.mem_map.mp hq
      obtain ⟨p, _, hwfw, _⟩ := hforall k hkmem
      exact hwfw
    · rw [conformsTo_obj_eq validator optionsOrNext none (.vObj pv) rfl rfl]
      have hfe2 : fieldErrors validator (.vObj pv) = [] := by
        simp only [fieldErrors]
        refine List.bind_eq_nil.mpr (fun key hk => ?_)
        simp [fieldErrsAt, hroundkey key hk]
      have hae2 : additionalErrorsFor validator (.vObj pv) (allowOf optionsOrNext) = [] :=
        additionalErrorsFor_self _ _ (by rw [keysOf_obj, hkeyspv]) _
      rw [hfe2, hae2]
      rw [if_neg (by simp)]
      have hvf2 : validatedFields validator (.vObj pv) = pv := by
        rw [validatedFields_map _ _ (fun key hk => ⟨_, hroundkey key hk⟩), hpv]
        refine List.map_eq_map_iff.mpr (fun k hk => ?_)
        rw [hroundkey k hk]
        rfl
      rw [hvf2]
      rfl


theorem idem_guard (a : Assertion) (cond : JsValue → Prop) [DecidablePred cond]
    (err : JsValue → ValidationResult) (next : Option Assertion)
    (ha : ∀ x, a x = if cond x then .ok (err x) else contNext next x)
    (herr : ∀ x v, err x ≠ .success v)
    (hkind : ∀ x v, ¬ cond x → sameKind x v → ¬ cond v)
    (hundef : ∀ x, ¬ cond x → x ≠ .vUndefined)
    (hnext : IdemPropO next) : IdemProp a := by
  intro x v hwf hsucc
  rw [ha x] at hsucc
  by_cases hc : cond x
  · rw [if_pos hc] at hsucc
    exact absurd (Except.ok.inj hsucc) (herr x v)
  · rw [if_neg hc] at hsucc
    cases next with
    | none =>
      cases hsucc
      refine ⟨hwf, fun _ => ⟨rfl, rfl⟩, ?_⟩
      rw [ha x, if_neg hc]
      rfl
    | some n =>
      obtain ⟨hwfv, hsk, hround⟩ := hnext x v hwf hsucc
      have hskv := hsk (hundef x hc)
      refine ⟨hwfv, fun _ => hskv, ?_⟩
      rw [ha v, if_neg (hkind x v hc hskv)]
      exact hround

/-- The undefined-substitution performed by `defaultsTo`. -/
def substDefault (dflt : JsValue) (x : JsValue) : JsValue :=
  match x with
  | .vUndefined => dflt
  | a => a

theorem substDefault_of_ne (dflt : JsValue) (x : JsValue) (hx : x ≠ .vUndefined) :
    substDefault dflt x = x := by
  cases x with
  | vUndefined => exact absurd rfl hx
  | vNull => rfl
  | vBool b => rfl
  | vNum n => rfl
  | vStr s => rfl
  | vArr items => rfl
  | vObj fields => rfl

theorem defaultsTo_eq (dflt : JsValue) (next : Option Assertion) (x : JsValue) :
    defaultsTo dflt next x = contNext next (substDefault dflt x) := by
  cases x <;> cases next <;> rfl

theorem optional_not_undefined (next : Option Assertion) (x : JsValue)
    (hx : x ≠ .vUndefined) : optional next x = contNext next x := by
  cases x with
  | vUndefined => exact absurd rfl hx
  | vNull => cases next <;> rfl
  | vBool b => cases next <;> rfl
  | vNum n => cases next <;> rfl
  | vStr s => cases next <;> rfl
  | vArr items => cases next <;> rfl
  | vObj fields => cases next <;> rfl

theorem nullable_not_null (next : Option Assertion) (x : JsValue)
    (hx : x ≠ .vNull) : nullable next x = contNext next x := by
  cases x with
  | vNull => exact absurd rfl hx
  | vUndefined => cases next <;> rfl
  | vBool b => cases next <;> rfl
  | vNum n => cases next <;> rfl
  | vStr s => cases next <;> rfl
  | vArr items => cases next <;> rfl
  | vObj fields => cases next <;> rfl

theorem sameKind_to_undefined {x v : JsValue} (hsk : sameKind x v) (hv : v = .vUndefined) :
    x = .vUndefined := by
  subst hv
  have h1 := hsk.1
  cases x with
  | vUndefined => rfl
  | vNull => simp [jsTypeof] at h1
  | vBool b => simp [jsTypeof] at h1
  | vNum n => simp [jsTypeof] at h1
  | vStr s => simp [jsTypeof] at h1
  | vArr items => simp [jsTypeof] at h1
  | vObj fields => simp [jsTypeof] at h1

theorem idem_equals (value : JsValue) (values : List JsValue) :
    IdemProp (equals value values) := by
  intro x v hwf hsucc
  rcases equals_cases value values x with hc | ⟨c, m, hc⟩
  · rw [hc] at hsucc
    cases hsucc
    exact ⟨hwf, fun _ => ⟨rfl, rfl⟩, hc⟩
  · rw [hc] at hsucc
    simp [error] at hsucc

theorem idem_optional (next : Option Assertion) (hnext : IdemPropO next) :
    IdemProp (optional next) := by
  intro x v hwf hsucc
  by_cases hx : x = .vUndefined
  · subst hx
    cases hsucc
    exact ⟨rfl, fun hne => absurd rfl hne, rfl⟩
  · rw [optional_not_undefined next x hx] at hsucc
    cases next with
    | none =>
      cases hsucc
      refine ⟨hwf, fun _ => ⟨rfl, rfl⟩, ?_⟩
      rw [optional_not_undefined none x hx]
      rfl
    | some n =>
      obtain ⟨hwfv, hsk, hround⟩ := hnext x v hwf hsucc
      refine ⟨hwfv, hsk, ?_⟩
      by_cases hv : v = .vUndefined
      · subst hv
        rfl
      · rw [optional_not_undefined (some n) v hv]
        exact hround

theorem idem_nullable (next : Option Assertion) (hnext : IdemPropO next) :
    IdemProp (nullable next) := by
  intro x v hwf hsucc
  by_cases hx : x = .vNull
  · subst hx
    cases hsucc
    exact ⟨rfl, fun _ => ⟨rfl, rfl⟩, rfl⟩
  · rw [nullable_not_null next x hx] at hsucc
    cases next with
    | none =>
      cases hsucc
      refine ⟨hwf, fun _ => ⟨rfl, rfl⟩, ?_⟩
      rw [nullable_not_null none x hx]
      rfl
    | some n =>
      obtain ⟨hwfv, hsk, hround⟩ := hnext x v hwf hsucc
      refine ⟨hwfv, hsk, ?_⟩
      by_cases hv : v = .vNull
      · subst hv
        rfl
      · rw [nullable_not_null (some n) v hv]
        exact hround

theorem idem_defaultsTo (dflt : JsValue) (next : Option Assertion)
    (hd : jsWF dflt = true) (hnext : IdemPropO next) : IdemProp (defaultsTo dflt next) := by
  intro x v hwf hsucc
  rw [defaultsTo_eq] at hsucc
  by_cases hx : x = .vUndefined
  · subst hx
    rw [show substDefault dflt .vUndefined = dflt from rfl] at hsucc
    cases next with
    | none =>
      cases hsucc
      refine ⟨hd, fun hne => absurd rfl hne, ?_⟩
      rw [defaultsTo_eq]
      by_cases hdu : dflt = .vUndefined
      · rw [hdu]
        rfl
      · rw [substDefault_of_ne _ _ hdu]
        rfl
    | some n =>
      obtain ⟨hwfv, _, hround⟩ := hnext dflt v hd hsucc
      refine ⟨hwfv, fun hne => absurd rfl hne, ?_⟩
      rw [defaultsTo_eq]
      by_cases hv : v = .vUndefined
      · subst hv
        exact hsucc
      · rw [substDefault_of_ne _ _ hv]
        exact hround
  · rw [substDefault_of_ne _ _ hx] at hsucc
    cases next with
    | none =>
      cases hsucc
      refine ⟨hwf, fun _ => ⟨rfl, rfl⟩, ?_⟩
      rw [defaultsTo_eq, substDefault_of_ne _ _ hx]
      rfl
    | some n =>
      obtain ⟨hwfv, hsk, hround⟩ := hnext x v hwf hsucc
      have hskv := hsk hx
      have hvne : v ≠ .vUndefined := fun hv => hx (sameKind_to_undefined hskv hv)
      refine ⟨hwfv, fun _ => hskv, ?_⟩
      rw [defaultsTo_eq, substDefault_of_ne _ _ hvne]
      exact hround

theorem itemResult_ok_elim {inner : Assertion} {item w : JsValue}
    (h : itemResult inner item = .success w) : inner item = .ok (.success w) := by
  unfold itemResult tryCatch at h
  cases hc : inner item with
  | ok r =>
    rw [hc] at h
    dsimp only at h
    rw [h]
  | error e =>
    rw [hc] at h
    simp [errorFromException] at h

theorem itemResult_of_ok {inner : Assertion} {w : JsValue} {r : ValidationResult}
    (h : inner w = .ok r) : itemResult inner w = r := by
  unfold itemResult tryCatch
  rw [h]

theorem eachItem_idem (inner : Assertion) (hi : IdemProp inner) :
    IdemLenProp (eachItem inner none) := by
  intro x v hwf hsucc
  cases x with
  | vArr items =>
    rcases eachItem_cases inner none items with ⟨hany, hc⟩ | ⟨hany, hc⟩
    · rw [hc] at hsucc
      simp at hsucc
    · rw [hc] at hsucc
      cases hsucc
      have hallsucc : ∀ item ∈ items,
          itemResult inner item = .success ((itemResult inner item).valueOrUndefined) := by
        intro item hmem
        have hb := List.any_eq_false.mp hany (itemResult inner item)
          (List.mem_map_of_mem _ hmem)
        cases hres : itemResult inner item with
        | success w =>
          simp [hres, ValidationResult.valueOrUndefined]
        | failure errs =>
          rw [hres] at hb
          simp [ValidationResult.isSuccessB] at hb
      have hpoint : ∀ item ∈ items,
          itemResult inner ((itemResult inner item).valueOrUndefined) =
            .success ((itemResult inner item).valueOrUndefined) ∧
          jsWF ((itemResult inner item).valueOrUndefined) = true := by
        intro item hmem
        have hin : inner item = .ok (.success ((itemResult inner item).valueOrUndefined)) :=
          itemResult_ok_elim (hallsucc item hmem)
        have hwfi : jsWF item = true := jsWFList_mem hwf hmem
        obtain ⟨hwfw, _, hround⟩ := hi item _ hwfi hin
        exact ⟨itemResult_of_ok hround, hwfw⟩
      set M := (items.map (itemResult inner)).map ValidationResult.valueOrUndefined with hM
      have hMmem : ∀ w ∈ M, ∃ item ∈ items,
          w = (itemResult inner item).valueOrUndefined := by
        intro w hw
        rw [hM] at hw
        obtain ⟨r, hr, rfl⟩ := List.mem_map.mp hw
        obtain ⟨item, hitem, rfl⟩ := List.mem_map.mp hr
        exact ⟨item, hitem, rfl⟩
      have hMwf : jsWF (.vArr M) = true := by
        show jsWFList M = true
        refine jsWFList_of_forall (fun w hw => ?_)
        obtain ⟨item, hitem, rfl⟩ := hMmem w hw
        exact (hpoint item hitem).2
      have hMlen : M.length = items.length := by simp [hM]
      refine ⟨hMwf, ⟨rfl, rfl⟩, by simp [jsLength, hMlen], ?_⟩
      rcases eachItem_cases inner none M with ⟨hany2, hc2⟩ | ⟨hany2, hc2⟩
      · exfalso
        obtain ⟨r0, hr0, hb⟩ := List.any_eq_true.mp hany2
        obtain ⟨w, hw, rfl⟩ := List.mem_map.mp hr0
        obtain ⟨item, hitem, rfl⟩ := hMmem w hw
        rw [(hpoint item hitem).1] at hb
        simp [ValidationResult.isSuccessB] at hb
      · rw [hc2]
        have hfix : (M.map (itemResult inner)).map ValidationResult.valueOrUndefined = M := by
          rw [List.map_map]
          calc M.map (ValidationResult.valueOrUndefined ∘ itemResult inner)
              = M.map id := List.map_eq_map_iff.mpr (fun w hw => by
                obtain ⟨item, hitem, rfl⟩ := hMmem w hw
                simp [Function.comp_def, (hpoint item hitem).1]
                rfl)
            _ = M := List.map_id M
        rw [hfix]
        rfl
  | vUndefined => exact absurd hsucc (by simp [eachItem])
  | vNull => exact absurd hsucc (by simp [eachItem])
  | vBool b => exact absurd hsucc (by simp [eachItem])
  | vNum n => exact absurd hsucc (by simp [eachItem])
  | vStr s => exact absurd hsucc (by simp [eachItem])
  | vObj fields => exact absurd hsucc (by simp [eachItem])

theorem foldl_validator (keys : List String) (a : Assertion) :
    keys.foldl (fun validator key => validator ++ [(key, a)]) [] =
      keys.map (fun k => (k, a)) := by
  suffices h : ∀ acc : List (String × Assertion),
      keys.foldl (fun validator key => validator ++ [(key, a)]) acc =
        acc ++ keys.map (fun k => (k, a)) by
    simpa using h []
  induction keys with
  | nil => intro acc; simp
  | cons k ks ih =>
    intro acc
    simp [ih, List.append_assoc]

theorem eachValue_idem (inner : Assertion) (hgood : GoodAssertion inner)
    (hidem : IdemProp inner) : IdemProp (eachValue inner none) := by
  intro x v hwf hsucc
  cases x with
  | vObj fields =>
    unfold eachValue at hsucc
    dsimp only [objectKeys] at hsucc
    rw [foldl_validator] at hsucc
    have hkeysid : ((fields.map Prod.fst).map
        (fun k => ((k, inner) : String × Assertion))).map Prod.fst = fields.map Prod.fst := by
      simp [List.map_map, Function.comp_def]
    have hnodup : myNodup ((((fields.map Prod.fst).map
        (fun k => ((k, inner) : String × Assertion)))).map Prod.fst) = true := by
      rw [hkeysid]
      have h2 : jsWF (.vObj fields) = (myNodup (fields.map Prod.fst) && jsWFFields fields) :=
        rfl
      have h3 := hwf
      rw [h2, Bool.and_eq_true] at h3
      exact h3.1
    obtain ⟨pv, hveq, hpvkeys, hwfv, hround⟩ :=
      conformsTo_idem _ none (.vObj fields) v hnodup
        (fun p hp => by obtain ⟨k, _, rfl⟩ := List.mem_map.mp hp; exact hgood)
        (fun p hp => by obtain ⟨k, _, rfl⟩ := List.mem_map.mp hp; exact hidem)
        hwf hsucc
    subst hveq
    refine ⟨hwfv, fun _ => ⟨rfl, rfl⟩, ?_⟩
    unfold eachValue
    dsimp only [objectKeys]
    have hk2 : pv.map Prod.fst = fields.map Prod.fst := by
      rw [hpvkeys, hkeysid]
    rw [hk2, foldl_validator]
    exact hround
  | vNull => exact absurd hsucc (by simp [eachValue, objectKeys])
  | vUndefined => exact absurd hsucc (by simp [eachValue, objectKeys])
  | vBool b =>
    exfalso
    unfold eachValue at hsucc
    dsimp only [objectKeys] at hsucc
    rw [conformsTo_not_object _ none none (.vBool b) (Or.inl (by simp [jsTypeof]))] at hsucc
    simp [error] at hsucc
  | vNum n =>
    exfalso
    unfold eachValue at hsucc
    dsimp only [objectKeys] at hsucc
    rw [conformsTo_not_object _ none none (.vNum n) (Or.inl (by simp [jsTypeof]))] at hsucc
    simp [error] at hsucc
  | vStr s =>
    exfalso
    unfold eachValue at hsucc
    dsimp only [objectKeys] at hsucc
    rw [conformsTo_not_object _ none none (.vStr s) (Or.inl (by simp [jsTypeof]))] at hsucc
    simp [error] at hsucc
  | vArr items =>
    exfalso
    unfold eachValue at hsucc
    dsimp only [objectKeys] at hsucc
    rw [conformsTo_not_object _ none none (.vArr items) (Or.inr rfl)] at hsucc
    simp [error] at hsucc

-- ### The kind-disciplined combinator grammar for the amended round-trip claim

/-- Number-bound chains, as they follow an `isNumber` kind check. -/
inductive GNum : Type where
  | gMin (m : Int) (next : Option GNum) : GNum
  | gMax (m : Int) (next : Option GNum) : GNum

/-- String/length chains, as they follow an `isString` kind check. -/
inductive GStr : Type where
  | gMinLength (m : Int) (next : Option GStr) : GStr
  | gMaxLength (m : Int) (next : Option GStr) : GStr
  | gLengthIs (m : Int) (next : Option GStr) : GStr
  | gMatches (regex : JsRegExp) (next : Option GStr) : GStr

mutual

/-- Assertions built from the engine's combinators, with bound/length
checks chained only after their matching kind check (the documented
precondition of the engine), continuations after the transforming
combinators `eachItem`/`conformsTo`/`eachValue` omitted, and `either` and
`onErrorDefaultsTo` excluded. -/
inductive GAssert : Type where
  | gIsBoolean (next : Option GAssert) : GAssert
  | gIsNumber (next : Option GNum) : GAssert
  | gIsString (next : Option GStr) : GAssert
  | gIsArray (next : Option GArrChain) : GAssert
  | gIsObject (next : Option GAssert) : GAssert
  | gIsMap (next : Option GAssert) : GAssert
  | gEquals (value : JsValue) (values : List JsValue) : GAssert
  | gOptional (next : Option GAssert) : GAssert
  | gNullable (next : Option GAssert) : GAssert
  | gDefaultsTo (dflt : JsValue) (next : Option GAssert) : GAssert
  | gConformsTo (fields : List (String × GAssert)) (allowAdditional : Bool) : GAssert
  | gEachValue (inner : GAssert) : GAssert

/-- Array chains following an `isArray` kind check: length checks and the
terminal `eachItem`. -/
inductive GArrChain : Type where
  | gMinLengthA (m : Int) (next : Option GArrChain) : GArrChain
  | gMaxLengthA (m : Int) (next : Option GArrChain) : GArrChain
  | gLengthIsA (m : Int) (next : Option GArrChain) : GArrChain
  | gEachItem (inner : GAssert) : GArrChain

end

def denoteNum : GNum → Assertion
  | .gMin m none => min m none
  | .gMin m (some c) => min m (some (denoteNum c))
  | .gMax m none => max m none
  | .gMax m (some c) => max m (some (denoteNum c))

def denoteStr : GStr → Assertion
  | .gMinLength m none => minLength m none
  | .gMinLength m (some c) => minLength m (some (denoteStr c))
  | .gMaxLength m none => maxLength m none
  | .gMaxLength m (some c) => maxLength m (some (denoteStr c))
  | .gLengthIs m none => lengthIs m none
  | .gLengthIs m (some c) => lengthIs m (some (denoteStr c))
  | .gMatches regex none => matchesRegExp regex none
  | .gMatches regex (some c) => matchesRegExp regex (some (denoteStr c))

mutual

/-- The assertion a grammar term denotes, built with the engine's own
combinators. -/
def denoteG : GAssert → Assertion
  | .gIsBoolean next => isBoolean (denoteGO next)
  | .gIsNumber none => isNumber none
  | .gIsNumber (some c) => isNumber (some (denoteNum c))
  | .gIsString none => isString none
  | .gIsString (some c) => isString (some (denoteStr c))
  | .gIsArray next => isArray (denoteArrO next)
  | .gIsObject next => isObject (denoteGO next)
  | .gIsMap next => isMap (denoteGO next)
  | .gEquals value values => equals value values
  | .gOptional next => optional (denoteGO next)
  | .gNullable next => nullable (denoteGO next)
  | .gDefaultsTo dflt next => defaultsTo dflt (denoteGO next)
  | .gConformsTo fields allowAdditional =>
    conformsTo (denoteFields fields)
      (if allowAdditional then none else some (.opts ⟨some false⟩)) none
  | .gEachValue inner => eachValue (denoteG inner) none

def denoteGO : Option GAssert → Option Assertion
  | none => none
  | some g => some (denoteG g)

def denoteFields : List (String × GAssert) → List (String × Assertion)
  | [] => []
  | (k, g) :: rest => (k, denoteG g) :: denoteFields rest

def denoteArr : GArrChain → Assertion
  | .gMinLengthA m next => minLength m (denoteArrO next)
  | .gMaxLengthA m next => maxLength m (denoteArrO next)
  | .gLengthIsA m next => lengthIs m (denoteArrO next)
  | .gEachItem inner => eachItem (denoteG inner) none

def denoteArrO : Option GArrChain → Option Assertion
  | none => none
  | some c => some (denoteArr c)

end

mutual

/-- Well-formedness of a grammar term: conformance specs carry
duplicate-free field names and `defaultsTo` carries a well-formed default
value. -/
def GWFb : GAssert → Bool
  | .gIsBoolean next => GWFbO next
  | .gIsNumber _ => true
  | .gIsString _ => true
  | .gIsArray next => GWFbArrO next
  | .gIsObject next => GWFbO next
  | .gIsMap next => GWFbO next
  | .gEquals _ _ => true
  | .gOptional next => GWFbO next
  | .gNullable next => GWFbO next
  | .gDefaultsTo dflt next => jsWF dflt && GWFbO next
  | .gConformsTo fields _ => myNodup (fieldsKeys fields) && GWFbFields fields
  | .gEachValue inner => GWFb inner

def GWFbO : Option GAssert → Bool
  | none => true
  | some g => GWFb g

def GWFbFields : List (String × GAssert) → Bool
  | [] => true
  | (_, g) :: rest => GWFb g && GWFbFields rest

def fieldsKeys : List (String × GAssert) → List String
  | [] => []
  | (k, _) :: rest => k :: fieldsKeys rest

def GWFbArr : GArrChain → Bool
  | .gMinLengthA _ next => GWFbArrO next
  | .gMaxLengthA _ next => GWFbArrO next
  | .gLengthIsA _ next => GWFbArrO next
  | .gEachItem inner => GWFb inner

def GWFbArrO : Option GArrChain → Bool
  | none => true
  | some c => GWFbArr c

end

-- ### Shape equations for the guard-style combinators

theorem isBoolean_eq (next : Option Assertion) (x : JsValue) :
    isBoolean next x =
      if jsTypeof x ≠ "boolean"
      then .ok (error ("NOT_BOOLEAN") ("Expected boolean, got " ++ jsTypeof x))
      else contNext next x := by
  cases next <;> rfl

theorem isNumber_eq (next : Option Assertion) (x : JsValue) :
    isNumber next x =
      if jsTypeof x ≠ "number"
      then .ok (error ("NOT_NUMBER") ("Expected number, got " ++ jsTypeof x))
      else contNext next x := by
  cases next <;> rfl

theorem isString_eq (next : Option Assertion) (x : JsValue) :
    isString next x =
      if jsTypeof x ≠ "string"
      then .ok (error ("NOT_STRING") ("Expected string, got " ++ jsTypeof x))
      else contNext next x := by
  cases next <;> rfl

theorem isArray_eq (next : Option Assertion) (x : JsValue) :
    isArray next x =
      if !(isArrayInstance x)
      then .ok (error ("NOT_ARRAY") ("Expected array, got " ++ jsTypeof x))
      else contNext next x := by
  cases next <;> rfl

theorem isObject_eq (next : Option Assertion) (x : JsValue) :
    isObject next x =
      if jsTypeof x ≠ "object" || isArrayInstance x
      then .ok (error ("NOT_OBJECT")
        ("Expected object, got " ++ (if isArrayInstance x then "array" else jsTypeof x)))
      else contNext next x := by
  cases next <;> rfl

theorem min_eq (m : Int) (next : Option Assertion) (x : JsValue) :
    min m next x =
      if jsLtI x m
      then .ok (error ("LESS_THAN_MIN") (jsCoerceString x ++ " is less than " ++ toString m))
      else contNext next x := by
  cases next <;> rfl

theorem max_eq (m : Int) (next : Option Assertion) (x : JsValue) :
    max m next x =
      if jsGtI x m
      then .ok (error ("GREATER_THAN_MAX")
        (jsCoerceString x ++ " is greater than " ++ toString m))
      else contNext next x := by
  cases next <;> rfl

theorem minLength_eq (m : Int) (next : Option Assertion) (x : JsValue) :
    minLength m next x =
      if (match jsLength x with
          | some l => decide (l < m)
          | none => false)
      then .ok (error ("LESS_THAN_MIN_LENGTH")
        ("Length " ++ jsLengthText x ++ " is less than " ++ toString m))
      else contNext next x := by
  cases next <;> rfl

theorem maxLength_eq (m : Int) (next : Option Assertion) (x : JsValue) :
    maxLength m next x =
      if (match jsLength x with
          | some l => decide (m < l)
          | none => false)
      then .ok (error ("GREATER_THAN_MAX_LENGTH")
        ("Length " ++ jsLengthText x ++ " is greater than " ++ toString m))
      else contNext next x := by
  cases next <;> rfl

theorem lengthIs_eq (m : Int) (next : Option Assertion) (x : JsValue) :
    lengthIs m next x =
      if (match jsLength x with
          | some l => decide (l ≠ m)
          | none => true)
      then .ok (error ("LENGTH_NOT_EQUAL")
        ("Length " ++ jsLengthText x ++ " is not equal to " ++ toString m))
      else contNext next x := by
  cases next <;> rfl

theorem matchesRegExp_eq (regex : JsRegExp) (next : Option Assertion) (x : JsValue) :
    matchesRegExp regex next x =
      if !(regex.test (jsCoerceString x))
      then .ok (error ("FAILED_REGEXP") ("Failed regular expression " ++ regex.display))
      else contNext next x := by
  cases next <;> rfl

-- ### Purity of the number and string chains

theorem denoteNum_value : ∀ (c : GNum) (x v : JsValue),
    denoteNum c x = .ok (.success v) → v = x
  | .gMin m none, x, v, h => by
    rw [show denoteNum (.gMin m none) = min m none from rfl, min_eq] at h
    split at h
    · simp [error] at h
    · cases h
      rfl
  | .gMin m (some c), x, v, h => by
    rw [show denoteNum (.gMin m (some c)) = min m (some (denoteNum c)) from rfl, min_eq] at h
    split at h
    · simp [error] at h
    · exact denoteNum_value c x v h
  | .gMax m none, x, v, h => by
    rw [show denoteNum (.gMax m none) = max m none from rfl, max_eq] at h
    split at h
    · simp [error] at h
    · cases h
      rfl
  | .gMax m (some c), x, v, h => by
    rw [show denoteNum (.gMax m (some c)) = max m (some (denoteNum c)) from rfl, max_eq] at h
    split at h
    · simp [error] at h
    · exact denoteNum_value c x v h

theorem denoteStr_value : ∀ (c : GStr) (x v : JsValue),
    denoteStr c x = .ok (.success v) → v = x
  | .gMinLength m none, x, v, h => by
    rw [show denoteStr (.gMinLength m none) = minLength m none from rfl, minLength_eq] at h
    split at h
    · simp [error] at h
    · cases h
      rfl
  | .gMinLength m (some c), x, v, h => by
    rw [show denoteStr (.gMinLength m (some c)) = minLength m (some (denoteStr c)) from rfl,
      minLength_eq] at h
    split at h
    · simp [error] at h
    · exact denoteStr_value c x v h
  | .gMaxLength m none, x, v, h => by
    rw [show denoteStr (.gMaxLength m none) = maxLength m none from rfl, maxLength_eq] at h
    split at h
    · simp [error] at h
    · cases h
      rfl
  | .gMaxLength m (some c), x, v, h => by
    rw [show denoteStr (.gMaxLength m (some c)) = maxLength m (some (denoteStr c)) from rfl,
      maxLength_eq] at h
    split at h
    · simp [error] at h
    · exact denoteStr_value c x v h
  | .gLengthIs m none, x, v, h => by
    rw [show denoteStr (.gLengthIs m none) = lengthIs m none from rfl, lengthIs_eq] at h
    split at h
    · simp [error] at h
    · cases h
      rfl
  | .gLengthIs m (some c), x, v, h => by
    rw [show denoteStr (.gLengthIs m (some c)) = lengthIs m (some (denoteStr c)) from rfl,
      lengthIs_eq] at h
    split at h
    · simp [error] at h
    · exact denoteStr_value c x v h
  | .gMatches regex none, x, v, h => by
    rw [show denoteStr (.gMatches regex none) = matchesRegExp regex none from rfl,
      matchesRegExp_eq] at h
    split at h
    · simp [error] at h
    · cases h
      rfl
  | .gMatches regex (some c), x, v, h => by
    rw [show denoteStr (.gMatches regex (some c)) =
        matchesRegExp regex (some (denoteStr c)) from rfl, matchesRegExp_eq] at h
    split at h
    · simp [error] at h
    · exact denoteStr_value c x v h

theorem idem_denoteNum (c : GNum) : IdemProp (denoteNum c) := by
  intro x v hwf hsucc
  obtain rfl := denoteNum_value c x v hsucc
  exact ⟨hwf, fun _ => ⟨rfl, rfl⟩, hsucc⟩

theorem idem_denoteStr (c : GStr) : IdemProp (denoteStr c) := by
  intro x v hwf hsucc
  obtain rfl := denoteStr_value c x v hsucc
  exact ⟨hwf, fun _ => ⟨rfl, rfl⟩, hsucc⟩

-- ### Combined goodness and idempotence, and remaining scaffolding

/-- The conjunction of the Failure invariant and round-trip idempotence of
an assertion. -/
def GProp (a : Assertion) : Prop := GoodAssertion a ∧ IdemProp a

def GPropO : Option Assertion → Prop
  | some a => GProp a
  | none => True

def IdemLenPropO : Option Assertion → Prop
  | some a => IdemLenProp a
  | none => True

theorem idemLen_to_idem (a : Assertion) (h : IdemLenProp a) : IdemProp a := by
  intro x v hwf hs
  obtain ⟨h1, h2, _, h4⟩ := h x v hwf hs
  exact ⟨h1, fun _ => h2, h4⟩

theorem gpropO_good (o : Option Assertion) (h : GPropO o) : GoodAssertionO o := by
  cases o with
  | none => trivial
  | some a => exact h.1

theorem gpropO_idem (o : Option Assertion) (h : GPropO o) : IdemPropO o := by
  cases o with
  | none => trivial
  | some a => exact h.2

theorem band_true_elim {a b : Bool} (h : (a && b) = true) : a = true ∧ b = true := by
  rw [Bool.and_eq_true] at h
  exact h

theorem denoteFields_keys : ∀ fields : List (String × GAssert),
    (denoteFields fields).map Prod.fst = fieldsKeys fields
  | [] => rfl
  | (k, g) :: rest => by
    rw [show denoteFields ((k, g) :: rest) = (k, denoteG g) :: denoteFields rest from rfl,
      List.map_cons, denoteFields_keys rest]
    rfl

theorem mem_denoteFields : ∀ (fields : List (String × GAssert)) (p : String × Assertion),
    p ∈ denoteFields fields → ∃ q ∈ fields, p = (q.1, denoteG q.2)
  | [], p, hp => absurd hp (List.not_mem_nil p)
  | (k, g) :: rest, p, hp => by
    rw [show denoteFields ((k, g) :: rest) = (k, denoteG g) :: denoteFields rest from rfl] at hp
    rcases List.mem_cons.mp hp with h1 | h1
    · exact ⟨(k, g), by simp, h1⟩
    · obtain ⟨q, hq, heq⟩ := mem_denoteFields rest p h1
      exact ⟨q, List.mem_cons_of_mem _ hq, heq⟩

theorem conformsTo_ok_success_kind {validator : List (String × Assertion)}
    {optionsOrNext : Option OptionsOrNext} {arg v : JsValue}
    (hs : conformsTo validator optionsOrNext none arg = .ok (.success v)) :
    jsTypeof arg = "object" ∧ isArrayInstance arg = false := by
  constructor
  · by_contra hc
    rw [conformsTo_not_object validator optionsOrNext none arg (Or.inl hc)] at hs
    simp [error] at hs
  · by_contra hc
    rw [conformsTo_not_object validator optionsOrNext none arg
      (Or.inr (by revert hc; cases isArrayInstance arg <;> simp))] at hs
    simp [error] at hs

theorem idemLen_guard (a : Assertion) (cond : JsValue → Bool)
    (err : JsValue → ValidationResult) (next : Option Assertion)
    (ha : ∀ x, a x = if cond x then .ok (err x) else contNext next x)
    (herr : ∀ x v, err x ≠ .success v)
    (hcond : ∀ x v, jsLength v = jsLength x → cond v = cond x)
    (hnext : IdemLenPropO next) : IdemLenProp a := by
  intro x v hwf hs
  rw [ha x] at hs
  by_cases hc : cond x = true
  · rw [if_pos hc] at hs
    exact absurd (Except.ok.inj hs) (herr x v)
  · rw [if_neg hc] at hs
    cases next with
    | none =>
      cases hs
      refine ⟨hwf, ⟨rfl, rfl⟩, rfl, ?_⟩
      rw [ha x, if_neg hc]
      rfl
    | some n =>
      obtain ⟨hwfv, hsk, hlen, hround⟩ := hnext x v hwf hs
      refine ⟨hwfv, hsk, hlen, ?_⟩
      rw [ha v, if_neg (by rw [hcond x v hlen]; exact hc)]
      exact hround

theorem idemLenO_to_idemO (o : Option Assertion) (h : IdemLenPropO o) : IdemPropO o := by
  cases o with
  | none => trivial
  | some a => exact idemLen_to_idem a h

theorem good_denoteNum : ∀ c : GNum, GoodAssertion (denoteNum c)
  | .gMin m none => good_min m none trivial
  | .gMin m (some c) => good_min m (some (denoteNum c)) (good_denoteNum c)
  | .gMax m none => good_max m none trivial
  | .gMax m (some c) => good_max m (some (denoteNum c)) (good_denoteNum c)

theorem good_denoteStr : ∀ c : GStr, GoodAssertion (denoteStr c)
  | .gMinLength m none => good_minLength m none trivial
  | .gMinLength m (some c) => good_minLength m (some (denoteStr c)) (good_denoteStr c)
  | .gMaxLength m none => good_maxLength m none trivial
  | .gMaxLength m (some c) => good_maxLength m (some (denoteStr c)) (good_denoteStr c)
  | .gLengthIs m none => good_lengthIs m none trivial
  | .gLengthIs m (some c) => good_lengthIs m (some (denoteStr c)) (good_denoteStr c)
  | .gMatches regex none => good_matchesRegExp regex none trivial
  | .gMatches regex (some c) => good_matchesRegExp regex (some (denoteStr c)) (good_denoteStr c)

theorem idem_isBoolean (next : Option Assertion) (hnext : IdemPropO next) :
    IdemProp (isBoolean next) := by
  refine idem_guard _ (fun x => jsTypeof x ≠ "boolean") _ next (isBoolean_eq next)
    ?_ ?_ ?_ hnext
  · intro x v h
    simp [error] at h
  · intro x v hc hsk hv
    exact hv (hsk.1.trans (not_not.mp hc))
  · intro x hc hx
    subst hx
    exact hc (by simp [jsTypeof])

theorem idem_isNumber (next : Option Assertion) (hnext : IdemPropO next) :
    IdemProp (isNumber next) := by
  refine idem_guard _ (fun x => jsTypeof x ≠ "number") _ next (isNumber_eq next)
    ?_ ?_ ?_ hnext
  · intro x v h
    simp [error] at h
  · intro x v hc hsk hv
    exact hv (hsk.1.trans (not_not.mp hc))
  · intro x hc hx
    subst hx
    exact hc (by simp [jsTypeof])

theorem idem_isString (next : Option Assertion) (hnext : IdemPropO next) :
    IdemProp (isString next) := by
  refine idem_guard _ (fun x => jsTypeof x ≠ "string") _ next (isString_eq next)
    ?_ ?_ ?_ hnext
  · intro x v h
    simp [error] at h
  · intro x v hc hsk hv
    exact hv (hsk.1.trans (not_not.mp hc))
  · intro x hc hx
    subst hx
    exact hc (by simp [jsTypeof])

theorem idem_isArray (next : Option Assertion) (hnext : IdemPropO next) :
    IdemProp (isArray next) := by
  refine idem_guard _ (fun x => (!(isArrayInstance x)) = true) _ next (isArray_eq next)
    ?_ ?_ ?_ hnext
  · intro x v h
    simp [error] at h
  · intro x v hc hsk hv
    apply hc
    rw [hsk.2] at hv
    exact hv
  · intro x hc hx
    subst hx
    exact hc rfl

theorem idem_isObject (next : Option Assertion) (hnext : IdemPropO next) :
    IdemProp (isObject next) := by
  refine idem_guard _
    (fun x => (decide (jsTypeof x ≠ "object") || isArrayInstance x) = true) _ next
    (isObject_eq next) ?_ ?_ ?_ hnext
  · intro x v h
    simp [error] at h
  · intro x v hc hsk hv
    apply hc
    rw [Bool.or_eq_true] at hv ⊢
    rcases hv with hv | hv
    · rw [decide_eq_true_eq] at hv
      exact Or.inl (by rw [decide_eq_true_eq, ← hsk.1]; exact hv)
    · exact Or.inr (by rw [← hsk.2]; exact hv)
  · intro x hc hx
    subst hx
    exact hc (by simp [jsTypeof, isArrayInstance])

theorem masterG_isBoolean (next : Option GAssert) (ih : GPropO (denoteGO next)) :
    GProp (denoteG (.gIsBoolean next)) :=
  ⟨good_isBoolean _ (gpropO_good _ ih), idem_isBoolean _ (gpropO_idem _ ih)⟩

theorem masterG_isNumber (next : Option GNum) : GProp (denoteG (.gIsNumber next)) := by
  cases next with
  | none =>
    exact ⟨good_isNumber none trivial, idem_isNumber none trivial⟩
  | some c =>
    exact ⟨good_isNumber (some (denoteNum c)) (good_denoteNum c),
      idem_isNumber (some (denoteNum c)) (idem_denoteNum c)⟩

theorem masterG_isString (next : Option GStr) : GProp (denoteG (.gIsString next)) := by
  cases next with
  | none =>
    exact ⟨good_isString none trivial, idem_isString none trivial⟩
  | some c =>
    exact ⟨good_isString (some (denoteStr c)) (good_denoteStr c),
      idem_isString (some (denoteStr c)) (idem_denoteStr c)⟩

theorem masterG_isObject (next : Option GAssert) (ih : GPropO (denoteGO next)) :
    GProp (denoteG (.gIsObject next)) :=
  ⟨good_isObject _ (gpropO_good _ ih), idem_isObject _ (gpropO_idem _ ih)⟩

theorem masterG_isMap (next : Option GAssert) (ih : GPropO (denoteGO next)) :
    GProp (denoteG (.gIsMap next)) :=
  ⟨good_isMap _ (gpropO_good _ ih),
   idemProp_congr _ _ (fun x => isMapEqIsObject (denoteGO next) x)
     (idem_isObject _ (gpropO_idem _ ih))⟩

theorem masterG_equals (value : JsValue) (values : List JsValue) :
    GProp (denoteG (.gEquals value values)) :=
  ⟨good_equals value values, idem_equals value values⟩

theorem masterG_optional (next : Option GAssert) (ih : GPropO (denoteGO next)) :
    GProp (denoteG (.gOptional next)) :=
  ⟨good_optional _ (gpropO_good _ ih), idem_optional _ (gpropO_idem _ ih)⟩

theorem masterG_nullable (next : Option GAssert) (ih : GPropO (denoteGO next)) :
    GProp (denoteG (.gNullable next)) :=
  ⟨good_nullable _ (gpropO_good _ ih), idem_nullable _ (gpropO_idem _ ih)⟩

theorem masterG_defaultsTo (dflt : JsValue) (next : Option GAssert)
    (hd : jsWF dflt = true) (ih : GPropO (denoteGO next)) :
    GProp (denoteG (.gDefaultsTo dflt next)) :=
  ⟨good_defaultsTo _ _ (gpropO_good _ ih), idem_defaultsTo _ _ hd (gpropO_idem _ ih)⟩

/-- The conjunction of the Failure invariant and length-preserving
idempotence of an array-chain assertion. -/
def GArrProp (a : Assertion) : Prop := GoodAssertion a ∧ IdemLenProp a

def GArrPropO : Option Assertion → Prop
  | some a => GArrProp a
  | none => True

theorem garrO_good (o : Option Assertion) (h : GArrPropO o) : GoodAssertionO o := by
  cases o with
  | none => trivial
  | some a => exact h.1

theorem garrO_idemLen (o : Option Assertion) (h : GArrPropO o) : IdemLenPropO o := by
  cases o with
  | none => trivial
  | some a => exact h.2

theorem masterG_isArray (next : Option GArrChain) (ih : GArrPropO (denoteArrO next)) :
    GProp (denoteG (.gIsArray next)) :=
  ⟨good_isArray _ (garrO_good _ ih),
   idem_isArray _ (idemLenO_to_idemO _ (garrO_idemLen _ ih))⟩

theorem masterG_conformsTo (fields : List (String × GAssert)) (allow : Bool)
    (hnodup : myNodup (fieldsKeys fields) = true)
    (ihs : ∀ q ∈ fields, GProp (denoteG q.2)) :
    GProp (denoteG (.gConformsTo fields allow)) := by
  constructor
  · exact good_conformsTo _ _ none trivial
  · intro x v hwf hs
    have hkind := conformsTo_ok_success_kind hs
    obtain ⟨pv, hveq, hpvkeys, hwfv, hround⟩ :=
      conformsTo_idem (denoteFields fields)
        (if allow then none else some (.opts ⟨some false⟩)) x v
        (by rw [denoteFields_keys]; exact hnodup)
        (fun p hp => by
          obtain ⟨q, hq, rfl⟩ := mem_denoteFields fields p hp
          exact (ihs q hq).1)
        (fun p hp => by
          obtain ⟨q, hq, rfl⟩ := mem_denoteFields fields p hp
          exact (ihs q hq).2)
        hwf hs
    subst hveq
    refine ⟨hwfv, fun _ => ⟨?_, ?_⟩, hround⟩
    · rw [hkind.1]
      rfl
    · rw [hkind.2]
      rfl

theorem masterG_eachValue (inner : GAssert) (ih : GProp (denoteG inner)) :
    GProp (denoteG (.gEachValue inner)) :=
  ⟨good_eachValue _ none, eachValue_idem (denoteG inner) ih.1 ih.2⟩

theorem masterArr_minLength (m : Int) (next : Option GArrChain)
    (ih : GArrPropO (denoteArrO next)) :
    GArrProp (denoteArr (.gMinLengthA m next)) := by
  refine ⟨good_minLength m _ (garrO_good _ ih), ?_⟩
  refine idemLen_guard _ _ _ _ (minLength_eq m (denoteArrO next)) ?_ ?_ (garrO_idemLen _ ih)
  · intro x v h
    simp [error] at h
  · intro x v hlen
    show (match jsLength v with
          | some l => decide (l < m)
          | none => false) =
        (match jsLength x with
         | some l => decide (l < m)
         | none => false)
    rw [hlen]

theorem masterArr_maxLength (m : Int) (next : Option GArrChain)
    (ih : GArrPropO (denoteArrO next)) :
    GArrProp (denoteArr (.gMaxLengthA m next)) := by
  refine ⟨good_maxLength m _ (garrO_good _ ih), ?_⟩
  refine idemLen_guard _ _ _ _ (maxLength_eq m (denoteArrO next)) ?_ ?_ (garrO_idemLen _ ih)
  · intro x v h
    simp [error] at h
  · intro x v hlen
    show (match jsLength v with
          | some l => decide (m < l)
          | none => false) =
        (match jsLength x with
         | some l => decide (m < l)
         | none => false)
    rw [hlen]

theorem masterArr_lengthIs (m : Int) (next : Option GArrChain)
    (ih : GArrPropO (denoteArrO next)) :
    GArrProp (denoteArr (.gLengthIsA m next)) := by
  refine ⟨good_lengthIs m _ (garrO_good _ ih), ?_⟩
  refine idemLen_guard _ _ _ _ (lengthIs_eq m (denoteArrO next)) ?_ ?_ (garrO_idemLen _ ih)
  · intro x v h
    simp [error] at h
  · intro x v hlen
    show (match jsLength v with
          | some l => decide (l ≠ m)
          | none => true) =
        (match jsLength x with
         | some l => decide (l ≠ m)
         | none => true)
    rw [hlen]

theorem masterArr_eachItem (inner : GAssert) (ih : GProp (denoteG inner)) :
    GArrProp (denoteArr (.gEachItem inner)) :=
  ⟨good_eachItem (denoteG inner) none ih.1 trivial, eachItem_idem (denoteG inner) ih.2⟩

mutual

theorem masterG : ∀ g : GAssert, GWFb g = true → GProp (denoteG g)
  | .gIsBoolean next, h => masterG_isBoolean next (masterGO next h)
  | .gIsNumber next, _ => masterG_isNumber next
  | .gIsString next, _ => masterG_isString next
  | .gIsArray next, h => masterG_isArray next (masterArrOpt next h)
  | .gIsObject next, h => masterG_isObject next (masterGO next h)
  | .gIsMap next, h => masterG_isMap next (masterGO next h)
  | .gEquals value values, _ => masterG_equals value values
  | .gOptional next, h => masterG_optional next (masterGO next h)
  | .gNullable next, h => masterG_nullable next (masterGO next h)
  | .gDefaultsTo dflt next, h =>
    masterG_defaultsTo dflt next (band_true_elim h).1 (masterGO next (band_true_elim h).2)
  | .gConformsTo fields allow, h =>
    masterG_conformsTo fields allow (band_true_elim h).1
      (masterFields fields (band_true_elim h).2)
  | .gEachValue inner, h => masterG_eachValue inner (masterG inner h)

theorem masterGO : ∀ o : Option GAssert, GWFbO o = true → GPropO (denoteGO o)
  | none, _ => trivial
  | some g, h => masterG g h

theorem masterFields : ∀ fields : List (String × GAssert), GWFbFields fields = true →
    ∀ q ∈ fields, GProp (denoteG q.2)
  | [], _, q, hq => absurd hq (List.not_mem_nil q)
  | (k, g) :: rest, h, q, hq =>
    Or.elim (List.mem_cons.mp hq)
      (fun heq => heq.symm ▸ masterG g (band_true_elim h).1)
      (fun hmem => masterFields rest (band_true_elim h).2 q hmem)

theorem masterArr : ∀ c : GArrChain, GWFbArr c = true → GArrProp (denoteArr c)
  | .gMinLengthA m next, h => masterArr_minLength m next (masterArrOpt next h)
  | .gMaxLengthA m next, h => masterArr_maxLength m next (masterArrOpt next h)
  | .gLengthIsA m next, h => masterArr_lengthIs m next (masterArrOpt next h)
  | .gEachItem inner, h => masterArr_eachItem inner (masterG inner h)

theorem masterArrOpt : ∀ o : Option GArrChain, GWFbArrO o = true → GArrPropO (denoteArrO o)
  | none, _ => trivial
  | some c, h => masterArr c h

end

/-- C9: as stated over all combinators the round-trip claim is false:
`onErrorDefaultsTo` can substitute a default value of a different kind
than the one an enclosing kind check demands.  Here
`isString(onErrorDefaultsTo(42, isNumber()))` maps the string input to
`Success 42`, yet re-validating the produced value `42` yields a
`NOT_STRING` Failure, not `Success 42`. -/
theorem roundtrip_counterexample :
    validate (.vStr "hi")
        (isString (some (onErrorDefaultsTo (.vNum 42) (isNumber none))))
      = ValidationResult.success (.vNum 42) ∧
    validate (.vNum 42)
        (isString (some (onErrorDefaultsTo (.vNum 42) (isNumber none))))
      = .failure [⟨"NOT_STRING", "Expected string, got number", []⟩] ∧
    validate (.vNum 42)
        (isString (some (onErrorDefaultsTo (.vNum 42) (isNumber none))))
      ≠ ValidationResult.success (.vNum 42) := by
  refine ⟨rfl, rfl, fun h => ?_⟩
  exact ValidationResult.noConfusion h

/-- C9 (amended): round-trip idempotence holds for every assertion in the
kind-disciplined grammar `GAssert` — the engine's combinators with
bound/length/regexp checks chained only after their matching kind check,
no continuation after the transformers `conformsTo`/`eachItem`/`eachValue`,
and `either`/`onErrorDefaultsTo` excluded — on well-formed inputs
(objects with duplicate-free keys, recursively): if
`validate(input, assertion)` returns `Success v` then
`validate(v, assertion)` returns `Success v` again. -/
theorem roundtrip_idempotent (g : GAssert) (x v : JsValue)
    (hg : GWFb g = true) (hx : jsWF x = true)
    (h : validate x (denoteG g) = ValidationResult.success v) :
    validate v (denoteG g) = ValidationResult.success v := by
  have hok : denoteG g x = .ok (.success v) := by
    unfold validate at h
    cases h' : denoteG g x with
    | ok r =>
      rw [h'] at h
      simp only [tryCatch] at h
      rw [h]
    | error e =>
      rw [h'] at h
      simp [tryCatch, errorFromException] at h
  obtain ⟨_, _, hround⟩ := (masterG g hg).2 x v hx hok
  unfold validate
  rw [hround]
  rfl

/-- Witness for C9 (amended): a concrete `conformsTo` schema with chained
string/number checks, run on a concrete object with an extra key; the
first validation strips the extra key and the round-trip re-validates the
stripped object to itself, via the theorem. -/
theorem roundtrip_idempotent_witness :
    GWFb (.gConformsTo [("name", .gIsString (some (.gMinLength 1 none))),
                        ("age", .gIsNumber (some (.gMin 0 none)))] true) = true ∧
    jsWF (.vObj [("extra", .vBool true), ("name", .vStr "Bob"), ("age", .vNum 3)]) = true ∧
    validate (.vObj [("extra", .vBool true), ("name", .vStr "Bob"), ("age", .vNum 3)])
        (denoteG (.gConformsTo [("name", .gIsString (some (.gMinLength 1 none))),
                                ("age", .gIsNumber (some (.gMin 0 none)))] true))
      = ValidationResult.success (.vObj [("name", .vStr "Bob"), ("age", .vNum 3)]) ∧
    validate (.vObj [("name", .vStr "Bob"), ("age", .vNum 3)])
        (denoteG (.gConformsTo [("name", .gIsString (some (.gMinLength 1 none))),
                                ("age", .gIsNumber (some (.gMin 0 none)))] true))
      = ValidationResult.success (.vObj [("name", .vStr "Bob"), ("age", .vNum 3)]) :=
  ⟨rfl, rfl, rfl,
   roundtrip_idempotent
     (.gConformsTo [("name", .gIsString (some (.gMinLength 1 none))),
                    ("age", .gIsNumber (some (.gMin 0 none)))] true)
     (.vObj [("extra", .vBool true), ("name", .vStr "Bob"), ("age", .vNum 3)])
     (.vObj [("name", .vStr "Bob"), ("age", .vNum 3)])
     rfl rfl rfl⟩

end TypedValidation
